import Mathlib

/-!
Verification development for the PixelNormalizedRenderer geometry core.

The definitions below are shallow embeddings of the functions in
`PixelNormalizedRenderer/core.py` and `PixelNormalizedRenderer/lighting.py`.
Scene scalars (Python floats, which are binary rationals) are modelled as `ℚ`
wherever the code does exact field arithmetic, and as `ℝ` in the camera
solver where transcendental functions (`atan`, `tan`, `sin`, `cos`) occur.
The host scene graph (Blender's `bpy` / `mathutils`) is an external
collaborator: an object is modelled by the data the code reads from it
(type tag, name, world transform, 8 local bounding-box corners), and the
scene unit scale is passed as an explicit parameter `ρ`.
-/

namespace ScaleRender

/-- Three-component vector over a scalar type. -/
structure Vec3 (α : Type) where
  x : α
  y : α
  z : α
deriving DecidableEq, Repr

/-- Affine world transform: three linear rows plus a translation column.
Models the action `obj.matrix_world @ Vector(corner)` of a `mathutils.Matrix`
on a 3-vector (the relevant 3x4 part of the 4x4 matrix). -/
structure Mat4 where
  r0 : Vec3 ℚ
  r1 : Vec3 ℚ
  r2 : Vec3 ℚ
  t : Vec3 ℚ
deriving DecidableEq, Repr

/-- Apply an affine transform to a point. -/
def Mat4.apply (m : Mat4) (v : Vec3 ℚ) : Vec3 ℚ :=
  ⟨m.r0.x * v.x + m.r0.y * v.y + m.r0.z * v.z + m.t.x,
   m.r1.x * v.x + m.r1.y * v.y + m.r1.z * v.z + m.t.y,
   m.r2.x * v.x + m.r2.y * v.y + m.r2.z * v.z + m.t.z⟩

/-- The identity transform. -/
def Mat4.id : Mat4 :=
  ⟨⟨1, 0, 0⟩, ⟨0, 1, 0⟩, ⟨0, 0, 1⟩, ⟨0, 0, 0⟩⟩

/-- The type tag Blender uses for mesh objects. -/
def meshTag : String := "MESH"

/-- The type tag Blender uses for light objects. -/
def lightTag : String := "LIGHT"

/-- The reserved helper-name marker: objects whose name starts with it are
excluded from geometry aggregation. -/
def helperMarker : String := "_"

/-- A scene object as supplied by the host collaborator: a type tag, a name,
a world transform, and the 8 local bounding-box corners (`obj.bound_box`,
which Blender always reports as exactly 8 corners). -/
structure Obj where
  otype : String
  name : String
  matrix_world : Mat4
  bound_box : List (Vec3 ℚ)
  bound_box_len : bound_box.length = 8

/-- A collection: the ordered list of its objects. -/
structure Collection where
  objects : List Obj

/-- Python's `s.startswith(pre)`: prefix test on the character sequences.
(`String.startsWith` itself is byte-level and does not reduce in proofs, so
the test is phrased over the underlying character lists.) -/
def pyStartsWith (s pre : String) : Bool :=
  pre.data.isPrefixOf s.data

/-- Whether an object participates in geometry aggregation: it must be a mesh
and its name must not start with the helper marker
(the two `continue` filters in `get_collection_bounds`). -/
def Obj.eligible (o : Obj) : Bool :=
  o.otype == meshTag && !(pyStartsWith o.name helperMarker)

/-- The mesh objects of a collection that pass the filters of
`get_collection_bounds`. -/
def eligibleObjects (c : Collection) : List Obj :=
  c.objects.filter Obj.eligible

/-- World-space bounding-box corners of one object
(`[obj.matrix_world @ Vector(corner) for corner in obj.bound_box]`). -/
def Obj.worldCorners (o : Obj) : List (Vec3 ℚ) :=
  o.bound_box.map o.matrix_world.apply

/-- All world-space corners collected over the eligible objects of a
collection (the `all_corners` accumulator in `get_collection_bounds`). -/
def allCorners (c : Collection) : List (Vec3 ℚ) :=
  (eligibleObjects c).foldr (fun o acc => o.worldCorners ++ acc) []

/-- Minimum of a list of rationals; Python's `min` on a nonempty list.
The `[]` case is never reached by the code (it guards on emptiness first). -/
def listMin : List ℚ → ℚ
  | [] => 0
  | a :: l => l.foldl min a

/-- Maximum of a list of rationals; Python's `max` on a nonempty list. -/
def listMax : List ℚ → ℚ
  | [] => 0
  | a :: l => l.foldl max a

/-- Embedding of `get_collection_bounds`: the combined world-space bounding
box of all eligible mesh objects, as per-axis min/max over the union of all
transformed corners, plus the list of included mesh objects.
Returns `none` when no corners were collected (the `return None, None, []`
branch). -/
def get_collection_bounds (c : Collection) :
    Option (Vec3 ℚ × Vec3 ℚ × List Obj) :=
  let corners := allCorners c
  if corners.isEmpty then none
  else
    some (⟨listMin (corners.map Vec3.x), listMin (corners.map Vec3.y),
            listMin (corners.map Vec3.z)⟩,
          ⟨listMax (corners.map Vec3.x), listMax (corners.map Vec3.y),
            listMax (corners.map Vec3.z)⟩,
          eligibleObjects c)

/-- Embedding of `get_collection_dimensions`: combined dimensions in
millimeters, `(0, 0, 0)` if there is no valid bounding box. `ρ` is the scene
unit scale `bpy.context.scene.unit_settings.scale_length`; the conversion is
scene units → meters (`ρ`) → millimeters (`× 1000`). Returns
`(width_mm, height_mm, depth_mm)` with width along x, depth along y and
height along z. -/
def get_collection_dimensions (c : Collection) (ρ : ℚ) : ℚ × ℚ × ℚ :=
  match get_collection_bounds c with
  | none => (0, 0, 0)
  | some (mn, mx, _) =>
    ((mx.x - mn.x) * ρ * 1000, (mx.z - mn.z) * ρ * 1000,
     (mx.y - mn.y) * ρ * 1000)

/-- Embedding of `get_collection_center`: midpoint of the combined bounding
box, `none` if there is no valid bounding box. -/
def get_collection_center (c : Collection) : Option (Vec3 ℚ) :=
  match get_collection_bounds c with
  | none => none
  | some (mn, mx, _) =>
    some ⟨(mx.x + mn.x) / 2, (mx.y + mn.y) / 2, (mx.z + mn.z) / 2⟩

/-- Python's `int()` conversion: truncation toward zero. -/
def pyInt (q : ℚ) : ℤ :=
  if 0 ≤ q then ⌊q⌋ else ⌈q⌉

/-- Embedding of `calculate_resolution`: output resolution from physical
dimensions, pixels-per-millimeter scale factor and per-edge pixel padding. -/
def calculate_resolution (width_mm height_mm scale_factor : ℚ)
    (padding_px : ℤ) : ℤ × ℤ :=
  (pyInt (width_mm * scale_factor) + padding_px * 2,
   pyInt (height_mm * scale_factor) + padding_px * 2)

/-- Maximum output resolution per axis (common GPU texture limit). -/
def MAX_RESOLUTION : ℤ := 16384

/-- Which message `validate_resolution` produces; the code formats these as
strings, modelled here by the branch that fired (empty string = `emptyMsg`). -/
inductive ResMsg
  | tooLarge
  | tooSmall
  | warnLarge
  | emptyMsg
deriving DecidableEq, Repr

/-- Embedding of `validate_resolution`: hard-fails above `MAX_RESOLUTION` or
below 1 pixel, succeeds with a warning above 8192, succeeds silently
otherwise. -/
def validate_resolution (width_px height_px : ℤ) : Bool × ResMsg :=
  if width_px > MAX_RESOLUTION ∨ height_px > MAX_RESOLUTION then
    (false, ResMsg.tooLarge)
  else if width_px < 1 ∨ height_px < 1 then
    (false, ResMsg.tooSmall)
  else if width_px > 8192 ∨ height_px > 8192 then
    (true, ResMsg.warnLarge)
  else
    (true, ResMsg.emptyMsg)

/-- Which message `validate_collection_dimensions` produces, by branch. -/
inductive DimMsg
  | invalidDimensions
  | tooSmall
  | tooLarge
  | emptyMsg
deriving DecidableEq, Repr

/-- Embedding of `validate_collection_dimensions`: zero/negative dimensions,
then width or height below 1mm, then any axis above 10000mm, else valid. -/
def validate_collection_dimensions (c : Collection) (ρ : ℚ) : Bool × DimMsg :=
  let dims := get_collection_dimensions c ρ
  let width := dims.1
  let height := dims.2.1
  let depth := dims.2.2
  if width ≤ 0 ∨ height ≤ 0 ∨ depth ≤ 0 then (false, DimMsg.invalidDimensions)
  else if width < 1 ∨ height < 1 then (false, DimMsg.tooSmall)
  else if width > 10000 ∨ height > 10000 ∨ depth > 10000 then
    (false, DimMsg.tooLarge)
  else (true, DimMsg.emptyMsg)

/-! Lighting system (`lighting.py`). -/

/-- Reference calibration height for light rig scaling, in millimeters. -/
def REFERENCE_HEIGHT : ℚ := 200

/-- Base energy of the key light, calibrated for a 200mm tall object. -/
def BASE_KEY_ENERGY : ℚ := 1000

/-- Base energy of the fill light. -/
def BASE_FILL_ENERGY : ℚ := 300

/-- Base energy of the rim light. -/
def BASE_RIM_ENERGY : ℚ := 500

/-- Name of the rig's key light object. -/
def keyLightName : String := "SCALE_RENDER_Key"

/-- Name of the rig's fill light object. -/
def fillLightName : String := "SCALE_RENDER_Fill"

/-- Name of the rig's rim light object. -/
def rimLightName : String := "SCALE_RENDER_Rim"

/-- The name marker stripped from child names before matching
(`child.name.replace("SCALE_RENDER_", "")`). -/
def rigNameTag : String := "SCALE_RENDER_"

/-- The empty string. -/
def emptyStr : String := ""

/-- Substring used to recognize the key light. -/
def keyWord : String := "Key"

/-- Substring used to recognize the fill light. -/
def fillWord : String := "Fill"

/-- Substring used to recognize the rim light. -/
def rimWord : String := "Rim"

/-- Fuel-driven core of string replacement over character lists; the fuel is
the input length, and every step consumes at least one character. -/
def replaceLoop : ℕ → List Char → List Char → List Char → List Char
  | 0, s, _, _ => s
  | _ + 1, [], _, _ => []
  | f + 1, c :: s, pat, rep =>
    if pat.isPrefixOf (c :: s) ∧ pat ≠ [] then
      rep ++ replaceLoop f ((c :: s).drop pat.length) pat rep
    else
      c :: replaceLoop f s pat rep

/-- Python's `s.replace(pat, rep)` on character lists (for nonempty `pat`;
the code only replaces the nonempty rig-name marker). -/
def replaceL (s pat rep : List Char) : List Char :=
  replaceLoop s.length s pat rep

/-- Python's `pat in s` substring test on character lists. -/
def containsL : List Char → List Char → Bool
  | [], pat => pat.isEmpty
  | c :: t, pat => pat.isPrefixOf (c :: t) || containsL t pat

/-- A child of the light rig: name, type tag, and the mutable light data the
scaler touches (energy and size). -/
structure RigChild where
  name : String
  otype : String
  energy : ℚ
  size : ℚ
deriving DecidableEq, Repr

/-- The light rig state: parent location and scale plus the child lights. -/
structure LightRig where
  location : Vec3 ℚ
  scale : Vec3 ℚ
  children : List RigChild
deriving DecidableEq, Repr

/-- The rig created by `get_or_create_light_rig`: an empty at the origin with
three area lights (key 1000 / fill 300 / rim 500, sizes 2 / 3 / 1.5). -/
def defaultLightRig : LightRig :=
  { location := ⟨0, 0, 0⟩
    scale := ⟨1, 1, 1⟩
    children :=
      [{ name := keyLightName, otype := lightTag,
         energy := BASE_KEY_ENERGY, size := 2 },
       { name := fillLightName, otype := lightTag,
         energy := BASE_FILL_ENERGY, size := 3 },
       { name := rimLightName, otype := lightTag,
         energy := BASE_RIM_ENERGY, size := 3/2 }] }

/-- The per-child mutation performed by `scale_light_rig_for_collection`:
lights get a name-matched base energy times `scale_factor ** 2` and a size of
`2.0 * scale_factor`; non-light children are untouched. -/
def scaleChild (sf : ℚ) (ch : RigChild) : RigChild :=
  if ch.otype == lightTag then
    let base := replaceL ch.name.data rigNameTag.data emptyStr.data
    { ch with
      energy :=
        if containsL base keyWord.data then BASE_KEY_ENERGY * sf ^ 2
        else if containsL base fillWord.data then BASE_FILL_ENERGY * sf ^ 2
        else if containsL base rimWord.data then BASE_RIM_ENERGY * sf ^ 2
        else ch.energy
      size := 2 * sf }
  else ch

/-- The clamped scale factor computed by `scale_light_rig_for_collection`:
`scale_factor = height / REFERENCE_HEIGHT` followed by
`scale_factor = max(0.1, min(scale_factor, 20.0))`. -/
def clampedScaleFactor (c : Collection) (ρ : ℚ) : ℚ :=
  max (1/10) (min ((get_collection_dimensions c ρ).2.1 / REFERENCE_HEIGHT) 20)

/-- Embedding of `scale_light_rig_for_collection`: clamp the height-derived
scale factor to `[0.1, 20.0]`, move the rig to the collection center, apply
the uniform scale, and update every child light's energy (inverse-square
compensation) and size. When the collection has no bounding box the center is
`None` and assigning it to the rig location faults in the host; modelled as
`none`. -/
def scale_light_rig_for_collection (c : Collection) (ρ : ℚ)
    (rig : LightRig) : Option LightRig :=
  match get_collection_center c with
  | none => none
  | some ctr =>
    let sf := clampedScaleFactor c ρ
    some { location := ctr
           scale := ⟨sf, sf, sf⟩
           children := rig.children.map (scaleChild sf) }

/-! Camera solver (`calculate_camera_position` in `core.py`). Scalars here
are `ℝ` because the code uses `atan`, `atan2`, `tan`, `sin`, `cos`. -/

noncomputable section

/-- Focal length in millimeters (85mm portrait lens). -/
def FOCAL_LENGTH : ℝ := 85

/-- Sensor width in millimeters (36mm full frame). -/
def SENSOR_WIDTH : ℝ := 36

/-- Fixed downward camera tilt, `math.radians(12)`. -/
def ELEVATION_ANGLE : ℝ := 12 * (Real.pi / 180)

/-- Python's `math.atan2(y, x)`. -/
def atan2 (y x : ℝ) : ℝ :=
  if 0 < x then Real.arctan (y / x)
  else if x < 0 then
    (if 0 ≤ y then Real.arctan (y / x) + Real.pi
     else Real.arctan (y / x) - Real.pi)
  else
    (if 0 < y then Real.pi / 2 else if y < 0 then -(Real.pi / 2) else 0)

/-- Vector difference. -/
def Vec3.subv (a b : Vec3 ℝ) : Vec3 ℝ :=
  ⟨a.x - b.x, a.y - b.y, a.z - b.z⟩

/-- Dot product. -/
def Vec3.dot (a b : Vec3 ℝ) : ℝ :=
  a.x * b.x + a.y * b.y + a.z * b.z

/-- Euclidean length. -/
def Vec3.len (a : Vec3 ℝ) : ℝ :=
  Real.sqrt (a.x ^ 2 + a.y ^ 2 + a.z ^ 2)

/-- Scalar multiple. -/
def Vec3.smul (k : ℝ) (a : Vec3 ℝ) : Vec3 ℝ :=
  ⟨k * a.x, k * a.y, k * a.z⟩

/-- `mathutils.Vector.normalized()`; the zero vector normalizes to itself. -/
def Vec3.normalized (a : Vec3 ℝ) : Vec3 ℝ :=
  if a.len = 0 then ⟨0, 0, 0⟩ else Vec3.smul (1 / a.len) a

/-- Cast a rational vector into the real-valued solver world. -/
def Vec3.toR (v : Vec3 ℚ) : Vec3 ℝ :=
  ⟨(v.x : ℝ), (v.y : ℝ), (v.z : ℝ)⟩

/-- Padding converted from pixels to scene units:
`padding_mm = padding_px / scale_factor`, then
`padding_bu = padding_mm / 1000 / unit_scale`. -/
def padding_bu (ρ s : ℚ) (p : ℤ) : ℚ :=
  ((p : ℚ) / s) / 1000 / ρ

/-- Collection dimensions recomputed from a bounding box, exactly as
`get_collection_dimensions` produces them for that box
(width, height, depth in millimeters). -/
def dimsOf (mn mx : Vec3 ℚ) (ρ : ℚ) : ℚ × ℚ × ℚ :=
  ((mx.x - mn.x) * ρ * 1000, (mx.z - mn.z) * ρ * 1000,
   (mx.y - mn.y) * ρ * 1000)

/-- Bounding-box center as used by the solver (`get_collection_center`). -/
def centerOf (mn mx : Vec3 ℚ) : Vec3 ℚ :=
  ⟨(mx.x + mn.x) / 2, (mx.y + mn.y) / 2, (mx.z + mn.z) / 2⟩

/-- Half horizontal field of view:
`atan(SENSOR_WIDTH / (2 * FOCAL_LENGTH))`. -/
def half_fov_h : ℝ :=
  Real.arctan (SENSOR_WIDTH / (2 * FOCAL_LENGTH))

/-- Output aspect ratio `res_w / res_h` of the resolution computed for the
box dimensions. -/
def aspectOf (mn mx : Vec3 ℚ) (ρ s : ℚ) (p : ℤ) : ℚ :=
  let dims := dimsOf mn mx ρ
  let res := calculate_resolution dims.1 dims.2.1 s p
  (res.1 : ℚ) / (res.2 : ℚ)

/-- Half vertical field of view: `atan(tan(half_fov_h) / aspect)`. -/
def half_fov_v (mn mx : Vec3 ℚ) (ρ s : ℚ) (p : ℤ) : ℝ :=
  Real.arctan (Real.tan half_fov_h / ((aspectOf mn mx ρ s p : ℚ) : ℝ))

/-- The 8 corners of the bounding box inflated by padding on x and z
(the `bbox_corners` list, in source order). -/
def paddedCorners (mn mx : Vec3 ℚ) (padB : ℚ) : List (Vec3 ℚ) :=
  [⟨mn.x - padB, mn.y, mn.z - padB⟩,
   ⟨mx.x + padB, mn.y, mn.z - padB⟩,
   ⟨mn.x - padB, mn.y, mx.z + padB⟩,
   ⟨mx.x + padB, mn.y, mx.z + padB⟩,
   ⟨mn.x - padB, mx.y, mn.z - padB⟩,
   ⟨mx.x + padB, mx.y, mn.z - padB⟩,
   ⟨mn.x - padB, mx.y, mx.z + padB⟩,
   ⟨mx.x + padB, mx.y, mx.z + padB⟩]

/-- Closed-form seed for the camera distance:
`max(frame_width/2 / tan(half_fov_h), frame_height/2 / tan(half_fov_v))`
with frame sizes inflated by padding. -/
def seedDistance (mn mx : Vec3 ℚ) (ρ s : ℚ) (p : ℤ) : ℝ :=
  let padB : ℝ := ((padding_bu ρ s p : ℚ) : ℝ)
  let fw : ℝ := ((mx.x - mn.x : ℚ) : ℝ) + padB * 2
  let fh : ℝ := ((mx.z - mn.z : ℚ) : ℝ) + padB * 2
  max ((fw / 2) / Real.tan half_fov_h)
    ((fh / 2) / Real.tan (half_fov_v mn mx ρ s p))

/-- Camera position for a candidate distance `d`: at the center's x, backed
off from the object's front face along -y, raised by the elevation tilt. -/
def camPos (center : Vec3 ℝ) (fy d : ℝ) : Vec3 ℝ :=
  ⟨center.x, fy - d, center.z + d * Real.tan ELEVATION_ANGLE⟩

/-- Distance of a corner along the camera's look direction
(`to_corner.dot(look_direction)`). -/
def forwardDist (center cam corner : Vec3 ℝ) : ℝ :=
  Vec3.dot (Vec3.subv corner cam) (Vec3.normalized (Vec3.subv center cam))

/-- Tilt-corrected vertical offset of a corner in camera space. -/
def vOffset (cam corner : Vec3 ℝ) : ℝ :=
  (corner.z - cam.z) * Real.cos ELEVATION_ANGLE +
    (corner.y - cam.y) * Real.sin ELEVATION_ANGLE

/-- The per-corner frustum test of the convergence loop: the corner must be
in front of the camera and its horizontal and vertical angles must not
exceed 98% of the half field of view. -/
def cornerOk (hfh hfv : ℝ) (center : Vec3 ℝ) (fy : ℝ) (d : ℝ)
    (corner : Vec3 ℝ) : Prop :=
  let cam := camPos center fy d
  let fwd := forwardDist center cam corner
  0 < fwd ∧
    |atan2 (corner.x - cam.x) fwd| ≤ hfh * 0.98 ∧
    |atan2 (vOffset cam corner) fwd| ≤ hfv * 0.98

/-- The loop's `all_corners_visible` flag for a candidate distance: the code
breaks out early on a corner behind the camera and keeps scanning otherwise,
but the flag ends up true exactly when every corner passes all three
checks. -/
def allCornersVisibleAt (mn mx : Vec3 ℚ) (ρ s : ℚ) (p : ℤ) (d : ℝ) : Prop :=
  ∀ corner ∈ paddedCorners mn mx (padding_bu ρ s p),
    cornerOk half_fov_h (half_fov_v mn mx ρ s p)
      (Vec3.toR (centerOf mn mx)) ((mn.y : ℝ)) d (Vec3.toR corner)

open scoped Classical in
/-- The bounded convergence loop: up to `fuel` iterations, stop as soon as
all corners are visible, otherwise increase the distance by 10% and retry.
Returns the final candidate distance and the number of distance increases
performed. -/
def convergenceLoop (vis : ℝ → Prop) : ℕ → ℝ → ℝ × ℕ
  | 0, d => (d, 0)
  | n + 1, d =>
    if vis d then (d, 0)
    else
      let r := convergenceLoop vis n (d * 1.1)
      (r.1, r.2 + 1)

/-- The loop of `calculate_camera_position`: 20 iterations maximum, starting
from the closed-form seed. -/
def loopResult (mn mx : Vec3 ℚ) (ρ s : ℚ) (p : ℤ) : ℝ × ℕ :=
  convergenceLoop (allCornersVisibleAt mn mx ρ s p) 20
    (seedDistance mn mx ρ s p)

/-- Final camera distance: the loop's distance times the 1.05 safety
buffer. -/
def finalDistance (mn mx : Vec3 ℚ) (ρ s : ℚ) (p : ℤ) : ℝ :=
  (loopResult mn mx ρ s p).1 * 1.05

/-- Final camera location, recomputed from the final distance. -/
def finalLocation (mn mx : Vec3 ℚ) (ρ s : ℚ) (p : ℤ) : Vec3 ℝ :=
  camPos (Vec3.toR (centerOf mn mx)) ((mn.y : ℝ)) (finalDistance mn mx ρ s p)

/-- Orientation pointing the camera's -Z axis along direction `d` with the
world-up convention. `direction.to_track_quat('-Z', 'Y').to_euler('XYZ')` is
computed by `mathutils`, an external host library not part of this
repository; modelled from its documented behavior as a roll-free pitch about
x and heading about z. No claim depends on this value. -/
def trackToEulerXYZ (d : Vec3 ℝ) : Vec3 ℝ :=
  ⟨Real.arccos (-d.z), 0, atan2 (-d.x) d.y⟩

/-- Embedding of `calculate_camera_position`: fall back to a fixed frame when
the collection has no usable bounding box, otherwise run the seeded
convergence loop, apply the 1.05 buffer and aim at the center. -/
def calculate_camera_position (c : Collection) (ρ s : ℚ) (p : ℤ) :
    Vec3 ℝ × Vec3 ℝ :=
  match get_collection_bounds c with
  | none => (⟨0, -1, 0.5⟩, ⟨78 * (Real.pi / 180), 0, 0⟩)
  | some (mn, mx, _) =>
    let loc := finalLocation mn mx ρ s p
    let center := Vec3.toR (centerOf mn mx)
    (loc, trackToEulerXYZ (Vec3.normalized (Vec3.subv center loc)))

/-- The corner test of the final-frame invariant: both projected angles,
computed with `atan2` exactly as the loop body computes them, are within 98%
of the half fields of view at the camera frame for distance `d`. -/
def cornerWithinFov (hfh hfv : ℝ) (center : Vec3 ℝ) (fy : ℝ) (d : ℝ)
    (corner : Vec3 ℝ) : Prop :=
  |atan2 (corner.x - (camPos center fy d).x)
      (forwardDist center (camPos center fy d) corner)| ≤ hfh * 0.98 ∧
  |atan2 (vOffset (camPos center fy d) corner)
      (forwardDist center (camPos center fy d) corner)| ≤ hfv * 0.98

/-- The claimed post-condition of `calculate_camera_position`: after the
loop and the 1.05 buffer, every padded bounding-box corner projects within
98% of both half fields of view in the final camera frame. -/
def finalFrameCornersSafe (mn mx : Vec3 ℚ) (ρ s : ℚ) (p : ℤ) : Prop :=
  ∀ corner ∈ paddedCorners mn mx (padding_bu ρ s p),
    cornerWithinFov half_fov_h (half_fov_v mn mx ρ s p)
      (Vec3.toR (centerOf mn mx)) ((mn.y : ℝ)) (finalDistance mn mx ρ s p)
      (Vec3.toR corner)

/-- Numerator of the forward distance of a corner, as a polynomial in the
camera distance `d`: here `A` is the center-to-front depth `center.y - fy`,
`u = corner.y - fy`, `w = corner.z - center.z` and `t` the tangent of the
elevation angle. -/
def Npoly (A u w t d : ℝ) : ℝ :=
  (u + d) * (A + d) + d * t * (d * t - w)

/-- Squared length of the camera-to-center vector as a polynomial in the
camera distance `d`. -/
def Dpoly (A t d : ℝ) : ℝ :=
  (A + d) ^ 2 + (d * t) ^ 2

end

/-! Concrete scene data used to exercise the definitions. -/

/-- Name used for concrete test parts. -/
def partName : String := "Part"

/-- The 8 corners of an axis-aligned box, as a local bounding box. -/
def boxCorners (mn mx : Vec3 ℚ) : List (Vec3 ℚ) :=
  [⟨mn.x, mn.y, mn.z⟩, ⟨mn.x, mn.y, mx.z⟩, ⟨mn.x, mx.y, mx.z⟩,
   ⟨mn.x, mx.y, mn.z⟩, ⟨mx.x, mn.y, mn.z⟩, ⟨mx.x, mn.y, mx.z⟩,
   ⟨mx.x, mx.y, mx.z⟩, ⟨mx.x, mx.y, mn.z⟩]

/-- A mesh object at identity transform whose bounding box is the given
axis-aligned box. -/
def mkBoxObj (nm : String) (mn mx : Vec3 ℚ) : Obj :=
  ⟨meshTag, nm, Mat4.id, boxCorners mn mx, rfl⟩

/-- A collection holding a single axis-aligned mesh box. -/
def boxCollection (mn mx : Vec3 ℚ) : Collection :=
  ⟨[mkBoxObj partName mn mx]⟩

/-- A collection whose only object is a light (no eligible geometry). -/
def lightOnlyCollection : Collection :=
  ⟨[⟨lightTag, keyLightName, Mat4.id, boxCorners ⟨0, 0, 0⟩ ⟨0, 0, 0⟩, rfl⟩]⟩

/-- The empty collection. -/
def emptyCollection : Collection := ⟨[]⟩

/-! Theorems. Shared helper lemmas come first, then one theorem per claim
(with witnesses and counterexamples where required). -/

theorem foldlMin_le_init (l : List ℚ) (a : ℚ) : l.foldl min a ≤ a := by
  induction l generalizing a with
  | nil => exact le_refl a
  | cons b t ih => exact le_trans (ih (min a b)) (min_le_left a b)

theorem foldlMin_le_mem {l : List ℚ} {x : ℚ} (a : ℚ) (h : x ∈ l) :
    l.foldl min a ≤ x := by
  induction l generalizing a with
  | nil => cases h
  | cons b t ih =>
    rcases List.mem_cons.1 h with rfl | hx
    · exact le_trans (foldlMin_le_init t (min a x)) (min_le_right a x)
    · exact ih (min a b) hx

theorem foldlMin_choice (l : List ℚ) (a : ℚ) :
    l.foldl min a = a ∨ l.foldl min a ∈ l := by
  induction l generalizing a with
  | nil => exact Or.inl rfl
  | cons b t ih =>
    rcases ih (min a b) with h | h
    · rcases min_cases a b with ⟨hm, _⟩ | ⟨hm, _⟩
      · exact Or.inl (by rw [List.foldl_cons, h, hm])
      · exact Or.inr (by rw [List.foldl_cons, h, hm]; exact List.mem_cons_self b t)
    · exact Or.inr (List.mem_cons_of_mem b h)

theorem foldlMax_ge_init (l : List ℚ) (a : ℚ) : a ≤ l.foldl max a := by
  induction l generalizing a with
  | nil => exact le_refl a
  | cons b t ih => exact le_trans (le_max_left a b) (ih (max a b))

theorem foldlMax_ge_mem {l : List ℚ} {x : ℚ} (a : ℚ) (h : x ∈ l) :
    x ≤ l.foldl max a := by
  induction l generalizing a with
  | nil => cases h
  | cons b t ih =>
    rcases List.mem_cons.1 h with rfl | hx
    · exact le_trans (le_max_right a x) (foldlMax_ge_init t (max a x))
    · exact ih (max a b) hx

theorem foldlMax_choice (l : List ℚ) (a : ℚ) :
    l.foldl max a = a ∨ l.foldl max a ∈ l := by
  induction l generalizing a with
  | nil => exact Or.inl rfl
  | cons b t ih =>
    rcases ih (max a b) with h | h
    · rcases max_cases a b with ⟨hm, _⟩ | ⟨hm, _⟩
      · exact Or.inl (by rw [List.foldl_cons, h, hm])
      · exact Or.inr (by rw [List.foldl_cons, h, hm]; exact List.mem_cons_self b t)
    · exact Or.inr (List.mem_cons_of_mem b h)

theorem listMin_le {l : List ℚ} {x : ℚ} (h : x ∈ l) : listMin l ≤ x := by
  cases l with
  | nil => cases h
  | cons a t =>
    rcases List.mem_cons.1 h with rfl | hx
    · exact foldlMin_le_init t x
    · exact foldlMin_le_mem a hx

theorem listMin_mem {l : List ℚ} (h : l ≠ []) : listMin l ∈ l := by
  cases l with
  | nil => exact absurd rfl h
  | cons a t =>
    show t.foldl min a ∈ a :: t
    rcases foldlMin_choice t a with he | he
    · rw [he]
      exact List.mem_cons_self a t
    · exact List.mem_cons_of_mem a he

theorem le_listMax {l : List ℚ} {x : ℚ} (h : x ∈ l) : x ≤ listMax l := by
  cases l with
  | nil => cases h
  | cons a t =>
    rcases List.mem_cons.1 h with rfl | hx
    · exact foldlMax_ge_init t x
    · exact foldlMax_ge_mem a hx

theorem listMax_mem {l : List ℚ} (h : l ≠ []) : listMax l ∈ l := by
  cases l with
  | nil => exact absurd rfl h
  | cons a t =>
    show t.foldl max a ∈ a :: t
    rcases foldlMax_choice t a with he | he
    · rw [he]
      exact List.mem_cons_self a t
    · exact List.mem_cons_of_mem a he

theorem pyInt_mono {q r : ℚ} (h : q ≤ r) : pyInt q ≤ pyInt r := by
  unfold pyInt
  by_cases h1 : 0 ≤ q
  · rw [if_pos h1, if_pos (h1.trans h)]
    exact Int.floor_le_floor h
  · rw [if_neg h1]
    by_cases h2 : 0 ≤ r
    · rw [if_pos h2]
      refine le_trans (Int.ceil_le.2 ?_) (Int.floor_nonneg.2 h2)
      exact_mod_cast (not_le.1 h1).le
    · rw [if_neg h2]
      exact Int.ceil_le_ceil h

theorem pyInt_eq_floor {q : ℚ} (h : 0 ≤ q) : pyInt q = ⌊q⌋ := by
  unfold pyInt
  exact if_pos h

/-- C2: for non-negative dimensions, positive scale and non-negative
padding, `calculate_resolution` is exactly floor-then-pad on each axis, the
documented example `(100, 200, 10, 10) ↦ (1020, 2020)` holds, and the
function is pure (it is a function of its arguments only). -/
theorem claimC2 (w h s : ℚ) (p : ℤ) (hw : 0 ≤ w) (hh : 0 ≤ h) (hs : 0 < s)
    (hp : 0 ≤ p) :
    calculate_resolution w h s p = (⌊w * s⌋ + 2 * p, ⌊h * s⌋ + 2 * p) ∧
    calculate_resolution 100 200 10 10 = (1020, 2020) := by
  constructor
  · unfold calculate_resolution
    rw [pyInt_eq_floor (mul_nonneg hw hs.le), pyInt_eq_floor (mul_nonneg hh hs.le)]
    rw [Prod.mk.injEq]
    constructor <;> ring
  · unfold calculate_resolution
    rw [pyInt_eq_floor (by norm_num), pyInt_eq_floor (by norm_num), Prod.mk.injEq]
    norm_num

/-- Witness for C2 at a concrete input. -/
theorem claimC2_witness :
    calculate_resolution 3 5 2 4 = (⌊(3 * 2 : ℚ)⌋ + 2 * 4, ⌊(5 * 2 : ℚ)⌋ + 2 * 4) ∧
    calculate_resolution 100 200 10 10 = (1020, 2020) :=
  claimC2 3 5 2 4 (by norm_num) (by norm_num) (by norm_num) (by norm_num)

/-- C6: resolution validation is a pure function that reports too-large
exactly above 16384 on either axis, otherwise too-small exactly below 1,
otherwise a non-fatal warning exactly above 8192, and otherwise passes
silently; the three documented examples behave as specified. -/
theorem claimC6 :
    (∀ w h : ℤ,
      (validate_resolution w h = (false, ResMsg.tooLarge) ↔
        (w > 16384 ∨ h > 16384)) ∧
      (validate_resolution w h = (false, ResMsg.tooSmall) ↔
        (¬(w > 16384 ∨ h > 16384) ∧ (w < 1 ∨ h < 1))) ∧
      (validate_resolution w h = (true, ResMsg.warnLarge) ↔
        (¬(w > 16384 ∨ h > 16384) ∧ ¬(w < 1 ∨ h < 1) ∧
          (w > 8192 ∨ h > 8192))) ∧
      (validate_resolution w h = (true, ResMsg.emptyMsg) ↔
        (¬(w > 16384 ∨ h > 16384) ∧ ¬(w < 1 ∨ h < 1) ∧
          ¬(w > 8192 ∨ h > 8192)))) ∧
    validate_resolution 20000 1000 = (false, ResMsg.tooLarge) ∧
    validate_resolution 0 1000 = (false, ResMsg.tooSmall) ∧
    validate_resolution 9000 9000 = (true, ResMsg.warnLarge) := by
  refine ⟨fun w h => ?_, by decide, by decide, by decide⟩
  unfold validate_resolution MAX_RESOLUTION
  split_ifs with h1 h2 h3 <;> simp_all

/-- C8: with non-negative dimensions and positive scale,
`calculate_resolution` is monotonically non-decreasing (componentwise) in
each of its four arguments. -/
theorem claimC8 (w h s : ℚ) (p : ℤ) (hw : 0 ≤ w) (hh : 0 ≤ h) (hs : 0 < s) :
    (∀ w', w ≤ w' →
      (calculate_resolution w h s p).1 ≤ (calculate_resolution w' h s p).1 ∧
      (calculate_resolution w h s p).2 ≤ (calculate_resolution w' h s p).2) ∧
    (∀ h', h ≤ h' →
      (calculate_resolution w h s p).1 ≤ (calculate_resolution w h' s p).1 ∧
      (calculate_resolution w h s p).2 ≤ (calculate_resolution w h' s p).2) ∧
    (∀ s', s ≤ s' →
      (calculate_resolution w h s p).1 ≤ (calculate_resolution w h s' p).1 ∧
      (calculate_resolution w h s p).2 ≤ (calculate_resolution w h s' p).2) ∧
    (∀ p', p ≤ p' →
      (calculate_resolution w h s p).1 ≤ (calculate_resolution w h s p').1 ∧
      (calculate_resolution w h s p).2 ≤ (calculate_resolution w h s p').2) := by
  unfold calculate_resolution
  refine ⟨fun w' hw' => ⟨?_, ?_⟩, fun h' hh' => ⟨?_, ?_⟩,
    fun s' hs' => ⟨?_, ?_⟩, fun p' hp' => ⟨?_, ?_⟩⟩
  · exact add_le_add_right (pyInt_mono (mul_le_mul_of_nonneg_right hw' hs.le)) _
  · exact le_refl _
  · exact le_refl _
  · exact add_le_add_right (pyInt_mono (mul_le_mul_of_nonneg_right hh' hs.le)) _
  · exact add_le_add_right (pyInt_mono (mul_le_mul_of_nonneg_left hs' hw)) _
  · exact add_le_add_right (pyInt_mono (mul_le_mul_of_nonneg_left hs' hh)) _
  · exact add_le_add_left (by omega) _
  · exact add_le_add_left (by omega) _

/-- Witness for C8 at a concrete input. -/
theorem claimC8_witness :
    (∀ w', (3 : ℚ) ≤ w' →
      (calculate_resolution 3 5 2 4).1 ≤ (calculate_resolution w' 5 2 4).1 ∧
      (calculate_resolution 3 5 2 4).2 ≤ (calculate_resolution w' 5 2 4).2) ∧
    (∀ h', (5 : ℚ) ≤ h' →
      (calculate_resolution 3 5 2 4).1 ≤ (calculate_resolution 3 h' 2 4).1 ∧
      (calculate_resolution 3 5 2 4).2 ≤ (calculate_resolution 3 h' 2 4).2) ∧
    (∀ s', (2 : ℚ) ≤ s' →
      (calculate_resolution 3 5 2 4).1 ≤ (calculate_resolution 3 5 s' 4).1 ∧
      (calculate_resolution 3 5 2 4).2 ≤ (calculate_resolution 3 5 s' 4).2) ∧
    (∀ p', (4 : ℤ) ≤ p' →
      (calculate_resolution 3 5 2 4).1 ≤ (calculate_resolution 3 5 2 p').1 ∧
      (calculate_resolution 3 5 2 4).2 ≤ (calculate_resolution 3 5 2 p').2) :=
  claimC8 3 5 2 4 (by norm_num) (by norm_num) (by norm_num)

theorem allCorners_nil_iff (c : Collection) :
    allCorners c = [] ↔ eligibleObjects c = [] := by
  unfold allCorners
  cases he : eligibleObjects c with
  | nil => simp
  | cons o t =>
    simp only [List.foldr_cons]
    constructor
    · intro hcontra
      have hl := congrArg List.length hcontra
      simp [Obj.worldCorners, o.bound_box_len] at hl
    · intro hcontra
      cases hcontra

theorem bounds_boxCollection (mn mx : Vec3 ℚ) (h1 : mn.x ≤ mx.x)
    (h2 : mn.y ≤ mx.y) (h3 : mn.z ≤ mx.z) :
    get_collection_bounds (boxCollection mn mx) =
      some (mn, mx, [mkBoxObj partName mn mx]) := by
  obtain ⟨mnx, mny, mnz⟩ := mn
  obtain ⟨mxx, mxy, mxz⟩ := mx
  have h1' : mnx ≤ mxx := h1
  have h2' : mny ≤ mxy := h2
  have h3' : mnz ≤ mxz := h3
  have helig : eligibleObjects (boxCollection ⟨mnx, mny, mnz⟩ ⟨mxx, mxy, mxz⟩) =
      [mkBoxObj partName ⟨mnx, mny, mnz⟩ ⟨mxx, mxy, mxz⟩] := rfl
  have hac : allCorners (boxCollection ⟨mnx, mny, mnz⟩ ⟨mxx, mxy, mxz⟩) =
      boxCorners ⟨mnx, mny, mnz⟩ ⟨mxx, mxy, mxz⟩ := by
    unfold allCorners
    rw [helig]
    show (mkBoxObj partName ⟨mnx, mny, mnz⟩ ⟨mxx, mxy, mxz⟩).worldCorners ++ [] =
      boxCorners ⟨mnx, mny, mnz⟩ ⟨mxx, mxy, mxz⟩
    rw [List.append_nil]
    unfold Obj.worldCorners mkBoxObj boxCorners Mat4.apply Mat4.id
    simp only [List.map]
    norm_num
  unfold get_collection_bounds
  rw [hac]
  dsimp only
  rw [show (boxCorners ⟨mnx, mny, mnz⟩ ⟨mxx, mxy, mxz⟩).isEmpty = false from rfl]
  simp only [Bool.false_eq_true, if_false]
  rw [helig]
  unfold boxCorners listMin listMax
  simp only [List.map, List.foldl]
  simp only [Option.some.injEq, Prod.mk.injEq, Vec3.mk.injEq]
  refine ⟨⟨?_, ?_, ?_⟩, ⟨?_, ?_, ?_⟩, trivial⟩ <;>
    simp [min_self, max_self, min_eq_left h1', min_eq_left h2', min_eq_left h3',
      max_eq_right h1', max_eq_right h2', max_eq_right h3',
      max_eq_left h1', max_eq_left h2', max_eq_left h3']

theorem dims_boxCollection (mn mx : Vec3 ℚ) (ρ : ℚ) (h1 : mn.x ≤ mx.x)
    (h2 : mn.y ≤ mx.y) (h3 : mn.z ≤ mx.z) :
    get_collection_dimensions (boxCollection mn mx) ρ =
      ((mx.x - mn.x) * ρ * 1000, (mx.z - mn.z) * ρ * 1000,
        (mx.y - mn.y) * ρ * 1000) := by
  unfold get_collection_dimensions
  rw [bounds_boxCollection mn mx h1 h2 h3]

theorem center_boxCollection (mn mx : Vec3 ℚ) (h1 : mn.x ≤ mx.x)
    (h2 : mn.y ≤ mx.y) (h3 : mn.z ≤ mx.z) :
    get_collection_center (boxCollection mn mx) =
      some ⟨(mx.x + mn.x) / 2, (mx.y + mn.y) / 2, (mx.z + mn.z) / 2⟩ := by
  unfold get_collection_center
  rw [bounds_boxCollection mn mx h1 h2 h3]

/-- C5: geometry aggregation ignores non-mesh parts and helper-named parts,
returns the absent value exactly when no eligible geometry exists, and
otherwise returns per-axis minima/maxima over the union of all
world-transformed corners (each bound is both a bound and attained by some
corner of the union), so the min corner is componentwise at most the max
corner. -/
theorem claimC5 (c : Collection) :
    get_collection_bounds c =
      get_collection_bounds ⟨c.objects.filter Obj.eligible⟩ ∧
    (get_collection_bounds c = none ↔ eligibleObjects c = []) ∧
    ∀ mn mx objs,
      get_collection_bounds c = some (mn, mx, objs) →
      objs = eligibleObjects c ∧
      (∀ v ∈ allCorners c,
        mn.x ≤ v.x ∧ mn.y ≤ v.y ∧ mn.z ≤ v.z ∧
        v.x ≤ mx.x ∧ v.y ≤ mx.y ∧ v.z ≤ mx.z) ∧
      ((∃ v ∈ allCorners c, v.x = mn.x) ∧ (∃ v ∈ allCorners c, v.y = mn.y) ∧
        (∃ v ∈ allCorners c, v.z = mn.z)) ∧
      ((∃ v ∈ allCorners c, v.x = mx.x) ∧ (∃ v ∈ allCorners c, v.y = mx.y) ∧
        (∃ v ∈ allCorners c, v.z = mx.z)) ∧
      (mn.x ≤ mx.x ∧ mn.y ≤ mx.y ∧ mn.z ≤ mx.z) := by
  have hiff : (allCorners c).isEmpty = true ↔ eligibleObjects c = [] := by
    rw [List.isEmpty_iff]
    exact allCorners_nil_iff c
  refine ⟨?_, ?_, ?_⟩
  · have hfe : eligibleObjects ⟨c.objects.filter Obj.eligible⟩ =
        eligibleObjects c := by
      show (c.objects.filter Obj.eligible).filter Obj.eligible =
        c.objects.filter Obj.eligible
      refine List.filter_eq_self.2 fun a ha => ?_
      exact (List.mem_filter.1 ha).2
    have hfc : allCorners ⟨c.objects.filter Obj.eligible⟩ = allCorners c := by
      unfold allCorners
      rw [hfe]
    unfold get_collection_bounds
    rw [hfc, hfe]
  · unfold get_collection_bounds
    by_cases hne : (allCorners c).isEmpty = true
    · rw [if_pos hne]
      simp [hiff.1 hne]
    · rw [if_neg hne]
      simp only [reduceCtorEq, false_iff]
      exact fun hh => hne (hiff.2 hh)
  · intro mn mx objs hsome
    unfold get_collection_bounds at hsome
    by_cases hne : (allCorners c).isEmpty = true
    · rw [if_pos hne] at hsome
      cases hsome
    · rw [if_neg hne] at hsome
      have h' := Option.some.inj hsome
      rw [Prod.mk.injEq, Prod.mk.injEq] at h'
      obtain ⟨hmn, hmx, hobjs⟩ := h'
      subst hmn
      subst hmx
      subst hobjs
      have hnil : allCorners c ≠ [] := fun hh => hne (by rw [hh]; rfl)
      have hxne : (allCorners c).map Vec3.x ≠ [] := by
        simpa using fun hh => hnil hh
      have hyne : (allCorners c).map Vec3.y ≠ [] := by
        simpa using fun hh => hnil hh
      have hzne : (allCorners c).map Vec3.z ≠ [] := by
        simpa using fun hh => hnil hh
      refine ⟨rfl, ?_, ⟨?_, ?_, ?_⟩, ⟨?_, ?_, ?_⟩, ?_, ?_, ?_⟩
      · intro v hv
        exact ⟨listMin_le (List.mem_map_of_mem Vec3.x hv),
          listMin_le (List.mem_map_of_mem Vec3.y hv),
          listMin_le (List.mem_map_of_mem Vec3.z hv),
          le_listMax (List.mem_map_of_mem Vec3.x hv),
          le_listMax (List.mem_map_of_mem Vec3.y hv),
          le_listMax (List.mem_map_of_mem Vec3.z hv)⟩
      · exact List.mem_map.1 (listMin_mem hxne)
      · exact List.mem_map.1 (listMin_mem hyne)
      · exact List.mem_map.1 (listMin_mem hzne)
      · exact List.mem_map.1 (listMax_mem hxne)
      · exact List.mem_map.1 (listMax_mem hyne)
      · exact List.mem_map.1 (listMax_mem hzne)
      · exact le_listMax (listMin_mem hxne)
      · exact le_listMax (listMin_mem hyne)
      · exact le_listMax (listMin_mem hzne)

/-- Witness for C5 at a concrete box collection. -/
theorem claimC5_witness :
    get_collection_bounds (boxCollection ⟨0, 0, 0⟩ ⟨1, 2, 3⟩) =
      some (⟨0, 0, 0⟩, ⟨1, 2, 3⟩, [mkBoxObj partName ⟨0, 0, 0⟩ ⟨1, 2, 3⟩]) ∧
    [mkBoxObj partName ⟨0, 0, 0⟩ ⟨1, 2, 3⟩] =
      eligibleObjects (boxCollection ⟨0, 0, 0⟩ ⟨1, 2, 3⟩) := by
  have h := bounds_boxCollection ⟨0, 0, 0⟩ ⟨1, 2, 3⟩ (by norm_num) (by norm_num)
    (by norm_num)
  exact ⟨h, ((claimC5 (boxCollection ⟨0, 0, 0⟩ ⟨1, 2, 3⟩)).2.2 _ _ _ h).1⟩

/-- C7: dimension validation fails through the invalid-dimensions branch
exactly when some axis is non-positive, otherwise through the too-small
branch exactly when width or height is below 1mm, otherwise through the
too-large branch exactly when some axis exceeds 10000mm, and passes
otherwise; the three documented example boxes behave as specified. -/
theorem claimC7 (c : Collection) (ρ : ℚ) :
    ((validate_collection_dimensions c ρ = (false, DimMsg.invalidDimensions) ↔
      ((get_collection_dimensions c ρ).1 ≤ 0 ∨
        (get_collection_dimensions c ρ).2.1 ≤ 0 ∨
        (get_collection_dimensions c ρ).2.2 ≤ 0)) ∧
     (validate_collection_dimensions c ρ = (false, DimMsg.tooSmall) ↔
      (¬((get_collection_dimensions c ρ).1 ≤ 0 ∨
          (get_collection_dimensions c ρ).2.1 ≤ 0 ∨
          (get_collection_dimensions c ρ).2.2 ≤ 0) ∧
        ((get_collection_dimensions c ρ).1 < 1 ∨
          (get_collection_dimensions c ρ).2.1 < 1))) ∧
     (validate_collection_dimensions c ρ = (false, DimMsg.tooLarge) ↔
      (¬((get_collection_dimensions c ρ).1 ≤ 0 ∨
          (get_collection_dimensions c ρ).2.1 ≤ 0 ∨
          (get_collection_dimensions c ρ).2.2 ≤ 0) ∧
        ¬((get_collection_dimensions c ρ).1 < 1 ∨
          (get_collection_dimensions c ρ).2.1 < 1) ∧
        ((get_collection_dimensions c ρ).1 > 10000 ∨
          (get_collection_dimensions c ρ).2.1 > 10000 ∨
          (get_collection_dimensions c ρ).2.2 > 10000))) ∧
     (validate_collection_dimensions c ρ = (true, DimMsg.emptyMsg) ↔
      (¬((get_collection_dimensions c ρ).1 ≤ 0 ∨
          (get_collection_dimensions c ρ).2.1 ≤ 0 ∨
          (get_collection_dimensions c ρ).2.2 ≤ 0) ∧
        ¬((get_collection_dimensions c ρ).1 < 1 ∨
          (get_collection_dimensions c ρ).2.1 < 1) ∧
        ¬((get_collection_dimensions c ρ).1 > 10000 ∨
          (get_collection_dimensions c ρ).2.1 > 10000 ∨
          (get_collection_dimensions c ρ).2.2 > 10000)))) ∧
    validate_collection_dimensions
      (boxCollection ⟨0, 0, 0⟩ ⟨1/2000, 1/20, 1/20⟩) 1 =
      (false, DimMsg.tooSmall) ∧
    validate_collection_dimensions (boxCollection ⟨0, 0, 0⟩ ⟨11, 1/20, 1/20⟩) 1 =
      (false, DimMsg.tooLarge) ∧
    validate_collection_dimensions
      (boxCollection ⟨0, 0, 0⟩ ⟨1/20, 1/20, 1/20⟩) 1 =
      (true, DimMsg.emptyMsg) := by
  refine ⟨?_, ?_, ?_, ?_⟩
  · unfold validate_collection_dimensions
    dsimp only
    split_ifs with hh1 hh2 hh3 <;> simp_all
  · have hd := dims_boxCollection ⟨0, 0, 0⟩ ⟨1/2000, 1/20, 1/20⟩ 1
      (by norm_num) (by norm_num) (by norm_num)
    unfold validate_collection_dimensions
    rw [hd]
    norm_num
  · have hd := dims_boxCollection ⟨0, 0, 0⟩ ⟨11, 1/20, 1/20⟩ 1
      (by norm_num) (by norm_num) (by norm_num)
    unfold validate_collection_dimensions
    rw [hd]
    norm_num
  · have hd := dims_boxCollection ⟨0, 0, 0⟩ ⟨1/20, 1/20, 1/20⟩ 1
      (by norm_num) (by norm_num) (by norm_num)
    unfold validate_collection_dimensions
    rw [hd]
    norm_num

/-- C10: when a collection has no eligible mesh parts,
`get_collection_dimensions` returns exactly `(0, 0, 0)` (not a distinct
absent value), and dimension validation consequently reports the failure
through the zero-dimension branch rather than a dedicated
no-eligible-geometry error. -/
theorem claimC10 (c : Collection) (ρ : ℚ) (h : eligibleObjects c = []) :
    get_collection_dimensions c ρ = (0, 0, 0) ∧
    validate_collection_dimensions c ρ = (false, DimMsg.invalidDimensions) := by
  have hc : allCorners c = [] := (allCorners_nil_iff c).2 h
  have hb : get_collection_bounds c = none := by
    unfold get_collection_bounds
    rw [hc]
    rfl
  have hd : get_collection_dimensions c ρ = (0, 0, 0) := by
    unfold get_collection_dimensions
    rw [hb]
  refine ⟨hd, ?_⟩
  unfold validate_collection_dimensions
  rw [hd]
  norm_num

/-- C3: for every collection with a computable bounding box, scaling the
light rig uses the clamped factor `max(0.1, min(height/200, 20))` (so the
factor always stays in `[0.1, 20]`), relocates the rig parent to the
bounding-box center with uniform scale, and sets every child light's energy
to its base energy times the squared factor and its size to twice the
factor; at height 200mm the energies equal the bases exactly, and at height
400mm the factor is 2 and the energies are 4 times the bases. -/
theorem claimC3 (c : Collection) (ρ : ℚ) (ctr : Vec3 ℚ)
    (hc : get_collection_center c = some ctr) :
    clampedScaleFactor c ρ =
      max (1/10)
        (min ((get_collection_dimensions c ρ).2.1 / REFERENCE_HEIGHT) 20) ∧
    1/10 ≤ clampedScaleFactor c ρ ∧ clampedScaleFactor c ρ ≤ 20 ∧
    scale_light_rig_for_collection c ρ defaultLightRig =
      some
        { location := ctr
          scale := ⟨clampedScaleFactor c ρ, clampedScaleFactor c ρ,
            clampedScaleFactor c ρ⟩
          children :=
            [⟨keyLightName, lightTag,
              BASE_KEY_ENERGY * clampedScaleFactor c ρ ^ 2,
              2 * clampedScaleFactor c ρ⟩,
             ⟨fillLightName, lightTag,
              BASE_FILL_ENERGY * clampedScaleFactor c ρ ^ 2,
              2 * clampedScaleFactor c ρ⟩,
             ⟨rimLightName, lightTag,
              BASE_RIM_ENERGY * clampedScaleFactor c ρ ^ 2,
              2 * clampedScaleFactor c ρ⟩] } ∧
    ((get_collection_dimensions c ρ).2.1 = 200 →
      clampedScaleFactor c ρ = 1 ∧
      BASE_KEY_ENERGY * clampedScaleFactor c ρ ^ 2 = BASE_KEY_ENERGY ∧
      BASE_FILL_ENERGY * clampedScaleFactor c ρ ^ 2 = BASE_FILL_ENERGY ∧
      BASE_RIM_ENERGY * clampedScaleFactor c ρ ^ 2 = BASE_RIM_ENERGY) ∧
    ((get_collection_dimensions c ρ).2.1 = 400 →
      clampedScaleFactor c ρ = 2 ∧
      BASE_KEY_ENERGY * clampedScaleFactor c ρ ^ 2 = 4 * BASE_KEY_ENERGY ∧
      BASE_FILL_ENERGY * clampedScaleFactor c ρ ^ 2 = 4 * BASE_FILL_ENERGY ∧
      BASE_RIM_ENERGY * clampedScaleFactor c ρ ^ 2 = 4 * BASE_RIM_ENERGY) := by
  refine ⟨rfl, le_max_left _ _, max_le (by norm_num) (min_le_right _ _), ?_, ?_, ?_⟩
  · unfold scale_light_rig_for_collection
    rw [hc]
    rfl
  · intro h200
    have hsf : clampedScaleFactor c ρ = 1 := by
      unfold clampedScaleFactor
      rw [h200, show (200 : ℚ) / REFERENCE_HEIGHT = 1 from by
          norm_num [REFERENCE_HEIGHT],
        min_eq_left (by norm_num : (1 : ℚ) ≤ 20),
        max_eq_right (by norm_num : (1 : ℚ)/10 ≤ 1)]
    rw [hsf]
    norm_num
  · intro h400
    have hsf : clampedScaleFactor c ρ = 2 := by
      unfold clampedScaleFactor
      rw [h400, show (400 : ℚ) / REFERENCE_HEIGHT = 2 from by
          norm_num [REFERENCE_HEIGHT],
        min_eq_left (by norm_num : (2 : ℚ) ≤ 20),
        max_eq_right (by norm_num : (1 : ℚ)/10 ≤ 2)]
    rw [hsf]
    norm_num [BASE_KEY_ENERGY, BASE_FILL_ENERGY, BASE_RIM_ENERGY]

/-- Witness for C3: a 100mm × 100mm × 200mm box (height 200mm). -/
theorem claimC3_witness :
    get_collection_center (boxCollection ⟨0, 0, 0⟩ ⟨1/10, 1/10, 1/5⟩) =
      some ⟨1/20, 1/20, 1/10⟩ ∧
    1/10 ≤ clampedScaleFactor (boxCollection ⟨0, 0, 0⟩ ⟨1/10, 1/10, 1/5⟩) 1 := by
  have hc : get_collection_center (boxCollection ⟨0, 0, 0⟩ ⟨1/10, 1/10, 1/5⟩) =
      some ⟨1/20, 1/20, 1/10⟩ := by
    rw [center_boxCollection ⟨0, 0, 0⟩ ⟨1/10, 1/10, 1/5⟩ (by norm_num)
      (by norm_num) (by norm_num)]
    norm_num
  exact ⟨hc, (claimC3 _ 1 _ hc).2.1⟩

/-- Witness for C10: a collection containing only a light. -/
theorem claimC10_witness :
    get_collection_dimensions lightOnlyCollection 1 = (0, 0, 0) ∧
    validate_collection_dimensions lightOnlyCollection 1 =
      (false, DimMsg.invalidDimensions) :=
  claimC10 lightOnlyCollection 1 rfl

theorem bounds_min_le_max {c : Collection} {mn mx : Vec3 ℚ} {objs : List Obj}
    (hb : get_collection_bounds c = some (mn, mx, objs)) :
    mn.x ≤ mx.x ∧ mn.y ≤ mx.y ∧ mn.z ≤ mx.z := by
  unfold get_collection_bounds at hb
  by_cases hne : (allCorners c).isEmpty = true
  · rw [if_pos hne] at hb
    cases hb
  · rw [if_neg hne] at hb
    have h' := Option.some.inj hb
    rw [Prod.mk.injEq, Prod.mk.injEq] at h'
    obtain ⟨hmn, hmx, -⟩ := h'
    subst hmn
    subst hmx
    have hnil : allCorners c ≠ [] := fun hh => hne (by rw [hh]; rfl)
    have hxne : (allCorners c).map Vec3.x ≠ [] := by
      simpa using fun hh => hnil hh
    have hyne : (allCorners c).map Vec3.y ≠ [] := by
      simpa using fun hh => hnil hh
    have hzne : (allCorners c).map Vec3.z ≠ [] := by
      simpa using fun hh => hnil hh
    exact ⟨le_listMax (listMin_mem hxne), le_listMax (listMin_mem hyne),
      le_listMax (listMin_mem hzne)⟩

/-- C9: for a collection with no usable bounding box, the camera solver does
not fail and returns the fixed fallback frame: location `(0, -1, 0.5)` and
rotation `(radians(78), 0, 0)`, independent of the scale factor and
padding. -/
theorem claimC9 (c : Collection) (ρ s : ℚ) (p : ℤ)
    (h : get_collection_bounds c = none) :
    calculate_camera_position c ρ s p =
      (⟨0, -1, 0.5⟩, ⟨78 * (Real.pi / 180), 0, 0⟩) := by
  unfold calculate_camera_position
  rw [h]

/-- Witness for C9: the empty collection, with two different render specs. -/
theorem claimC9_witness :
    calculate_camera_position emptyCollection 1 10 0 =
      (⟨0, -1, 0.5⟩, ⟨78 * (Real.pi / 180), 0, 0⟩) ∧
    calculate_camera_position emptyCollection 1 3 7 =
      (⟨0, -1, 0.5⟩, ⟨78 * (Real.pi / 180), 0, 0⟩) :=
  ⟨claimC9 emptyCollection 1 10 0 rfl, claimC9 emptyCollection 1 3 7 rfl⟩

theorem convergenceLoop_iterations_le (vis : ℝ → Prop) (n : ℕ) (d : ℝ) :
    (convergenceLoop vis n d).2 ≤ n := by
  induction n generalizing d with
  | zero => simp [convergenceLoop]
  | succ k ih =>
    by_cases h : vis d
    · simp [convergenceLoop, h]
    · simp only [convergenceLoop, h, if_false]
      exact Nat.succ_le_succ (ih (d * 1.1))

theorem convergenceLoop_dist (vis : ℝ → Prop) (n : ℕ) (d : ℝ) :
    (convergenceLoop vis n d).1 = d * 1.1 ^ (convergenceLoop vis n d).2 := by
  induction n generalizing d with
  | zero => simp [convergenceLoop]
  | succ k ih =>
    by_cases h : vis d
    · simp [convergenceLoop, h]
    · simp only [convergenceLoop, h, if_false]
      rw [ih (d * 1.1), pow_succ]
      ring

theorem tan_half_fov_h_eq : Real.tan half_fov_h = 18 / 85 := by
  unfold half_fov_h SENSOR_WIDTH FOCAL_LENGTH
  rw [Real.tan_arctan]
  norm_num

theorem seedDistance_nonneg {mn mx : Vec3 ℚ} {ρ s : ℚ} {p : ℤ}
    (hx : mn.x ≤ mx.x) (hρ : 0 < ρ) (hs : 0 < s) (hp : 0 ≤ p) :
    0 ≤ seedDistance mn mx ρ s p := by
  have hpad : (0 : ℚ) ≤ padding_bu ρ s p := by
    unfold padding_bu
    positivity
  have hfw : (0 : ℝ) ≤ ((mx.x - mn.x : ℚ) : ℝ) + ((padding_bu ρ s p : ℚ) : ℝ) * 2 := by
    have h1 : (0 : ℝ) ≤ ((mx.x - mn.x : ℚ) : ℝ) := by
      rw [Rat.cast_sub]
      simp only [sub_nonneg, Rat.cast_le]
      exact hx
    have h2 : (0 : ℝ) ≤ ((padding_bu ρ s p : ℚ) : ℝ) := by
      simpa using hpad
    linarith
  refine le_trans ?_ (le_max_left _ _)
  rw [tan_half_fov_h_eq]
  positivity

/-- C4: the convergence loop always performs at most 20 iterations (it is a
total function guarded purely by its fixed fuel), every distance step
multiplies the candidate by exactly 1.10 (the loop's distance equals the
seed times a power of 1.1 with exponent equal to the iteration count), the
distance never decreases, and the final distance after the 1.05 buffer is at
least the closed-form seed. -/
theorem claimC4 (c : Collection) (ρ s : ℚ) (p : ℤ) (mn mx : Vec3 ℚ)
    (objs : List Obj) (hb : get_collection_bounds c = some (mn, mx, objs))
    (hρ : 0 < ρ) (hs : 0 < s) (hp : 0 ≤ p) :
    (loopResult mn mx ρ s p).2 ≤ 20 ∧
    (loopResult mn mx ρ s p).1 =
      seedDistance mn mx ρ s p * 1.1 ^ (loopResult mn mx ρ s p).2 ∧
    0 ≤ seedDistance mn mx ρ s p ∧
    seedDistance mn mx ρ s p ≤ (loopResult mn mx ρ s p).1 ∧
    (loopResult mn mx ρ s p).1 ≤ finalDistance mn mx ρ s p ∧
    seedDistance mn mx ρ s p ≤ finalDistance mn mx ρ s p := by
  have hx := (bounds_min_le_max hb).1
  have hseed := seedDistance_nonneg hx hρ hs hp
  have hk := convergenceLoop_iterations_le
    (allCornersVisibleAt mn mx ρ s p) 20 (seedDistance mn mx ρ s p)
  have hd := convergenceLoop_dist
    (allCornersVisibleAt mn mx ρ s p) 20 (seedDistance mn mx ρ s p)
  have hpow : (1 : ℝ) ≤ 1.1 ^ (loopResult mn mx ρ s p).2 :=
    one_le_pow₀ (by norm_num)
  have hloop_ge : seedDistance mn mx ρ s p ≤ (loopResult mn mx ρ s p).1 := by
    rw [show (loopResult mn mx ρ s p).1 =
        seedDistance mn mx ρ s p * 1.1 ^ (loopResult mn mx ρ s p).2 from hd]
    nlinarith
  have hloop_nonneg : 0 ≤ (loopResult mn mx ρ s p).1 := le_trans hseed hloop_ge
  have hfin : (loopResult mn mx ρ s p).1 ≤ finalDistance mn mx ρ s p := by
    unfold finalDistance
    nlinarith
  exact ⟨hk, hd, hseed, hloop_ge, hfin, le_trans hloop_ge hfin⟩

/-- Witness for C4 at a concrete box collection. -/
theorem claimC4_witness :
    (loopResult ⟨0, 0, 0⟩ ⟨1, 2, 3⟩ 1 10 0).2 ≤ 20 ∧
    seedDistance ⟨0, 0, 0⟩ ⟨1, 2, 3⟩ 1 10 0 ≤
      finalDistance ⟨0, 0, 0⟩ ⟨1, 2, 3⟩ 1 10 0 := by
  have hb := bounds_boxCollection ⟨0, 0, 0⟩ ⟨1, 2, 3⟩ (by norm_num) (by norm_num)
    (by norm_num)
  have h := claimC4 (boxCollection ⟨0, 0, 0⟩ ⟨1, 2, 3⟩) 1 10 0 ⟨0, 0, 0⟩ ⟨1, 2, 3⟩
    _ hb (by norm_num) (by norm_num) (by norm_num)
  exact ⟨h.1, h.2.2.2.2.2⟩

theorem elevation_eq : ELEVATION_ANGLE = Real.pi / 15 := by
  unfold ELEVATION_ANGLE
  ring

theorem elevation_pos : 0 < ELEVATION_ANGLE := by
  rw [elevation_eq]
  exact div_pos Real.pi_pos (by norm_num)

theorem elevation_lb : (0.2094 : ℝ) < ELEVATION_ANGLE := by
  rw [elevation_eq]
  have h := Real.pi_gt_d4
  linarith

theorem elevation_ub : ELEVATION_ANGLE < (0.2095 : ℝ) := by
  rw [elevation_eq]
  have h := Real.pi_lt_d4
  linarith

theorem elevation_lt_half_pi : ELEVATION_ANGLE < Real.pi / 2 := by
  rw [elevation_eq]
  have h := Real.pi_pos
  linarith

theorem cosE_pos : 0 < Real.cos ELEVATION_ANGLE := by
  refine Real.cos_pos_of_mem_Ioo ⟨?_, elevation_lt_half_pi⟩
  have h1 := elevation_pos
  have h2 := Real.pi_pos
  linarith

theorem sinE_pos : 0 < Real.sin ELEVATION_ANGLE := by
  refine Real.sin_pos_of_pos_of_lt_pi elevation_pos ?_
  have h1 := elevation_lt_half_pi
  have h2 := Real.pi_pos
  linarith

theorem sinE_eq_tanE_mul_cosE :
    Real.sin ELEVATION_ANGLE = Real.tan ELEVATION_ANGLE * Real.cos ELEVATION_ANGLE := by
  rw [Real.tan_eq_sin_div_cos, div_mul_cancel₀]
  exact ne_of_gt cosE_pos

theorem tanE_pos : 0 < Real.tan ELEVATION_ANGLE :=
  Real.tan_pos_of_pos_of_lt_pi_div_two elevation_pos elevation_lt_half_pi

theorem tanE_lb : (1 : ℝ)/5 < Real.tan ELEVATION_ANGLE := by
  have hE1 : ELEVATION_ANGLE ≤ 1 := by linarith [elevation_ub]
  have hcube := Real.sin_gt_sub_cube elevation_pos hE1
  have hE3 : ELEVATION_ANGLE ^ 3 ≤ (21/100 : ℝ) ^ 3 :=
    pow_le_pow_left elevation_pos.le (by linarith [elevation_ub]) 3
  have hs : (1 : ℝ)/5 < Real.sin ELEVATION_ANGLE := by
    nlinarith [elevation_lb]
  have hc1 : Real.cos ELEVATION_ANGLE ≤ 1 := Real.cos_le_one _
  rw [Real.tan_eq_sin_div_cos]
  calc (1 : ℝ)/5 < Real.sin ELEVATION_ANGLE := hs
    _ = Real.sin ELEVATION_ANGLE / 1 := by ring
    _ ≤ Real.sin ELEVATION_ANGLE / Real.cos ELEVATION_ANGLE :=
        div_le_div_of_nonneg_left sinE_pos.le cosE_pos hc1

theorem tanE_ub : Real.tan ELEVATION_ANGLE < (1 : ℝ)/4 := by
  have hcos := Real.one_sub_sq_div_two_le_cos (x := ELEVATION_ANGLE)
  have hsin := Real.sin_le elevation_pos.le
  have hE2 : ELEVATION_ANGLE ^ 2 ≤ (21/100 : ℝ) ^ 2 :=
    pow_le_pow_left elevation_pos.le (by linarith [elevation_ub]) 2
  rw [Real.tan_eq_sin_div_cos, div_lt_iff cosE_pos]
  nlinarith [elevation_ub]

theorem abs_arctan (z : ℝ) : |Real.arctan z| = Real.arctan |z| := by
  rcases le_or_lt 0 z with hz | hz
  · rw [abs_of_nonneg hz, abs_of_nonneg]
    rw [← Real.arctan_zero]
    exact Real.arctan_strictMono.monotone hz
  · rw [abs_of_neg hz, abs_of_neg, ← Real.arctan_neg]
    rw [← Real.arctan_zero]
    exact Real.arctan_strictMono hz

theorem abs_atan2_mono {y x xx : ℝ} (hx : 0 < x) (hxx : x ≤ xx) :
    |atan2 y xx| ≤ |atan2 y x| := by
  have hx2 : 0 < xx := lt_of_lt_of_le hx hxx
  unfold atan2
  rw [if_pos hx, if_pos hx2, abs_arctan, abs_arctan]
  apply Real.arctan_strictMono.monotone
  rw [abs_div, abs_div, abs_of_pos hx, abs_of_pos hx2]
  exact div_le_div_of_nonneg_left (abs_nonneg y) hx hxx

theorem vOffset_eq (cx cy cz fy d qx qy qz : ℝ) :
    vOffset (camPos ⟨cx, cy, cz⟩ fy d) ⟨qx, qy, qz⟩ =
      (qz - cz) * Real.cos ELEVATION_ANGLE +
        (qy - fy) * Real.sin ELEVATION_ANGLE := by
  unfold vOffset camPos
  dsimp only
  rw [sinE_eq_tanE_mul_cosE]
  ring

theorem forwardDist_eq (cx cy cz fy d qx qy qz : ℝ) (h : 0 < cy - fy + d) :
    forwardDist ⟨cx, cy, cz⟩ (camPos ⟨cx, cy, cz⟩ fy d) ⟨qx, qy, qz⟩ =
      Npoly (cy - fy) (qy - fy) (qz - cz) (Real.tan ELEVATION_ANGLE) d /
        Real.sqrt (Dpoly (cy - fy) (Real.tan ELEVATION_ANGLE) d) := by
  have hD : 0 < Dpoly (cy - fy) (Real.tan ELEVATION_ANGLE) d := by
    unfold Dpoly
    have := pow_pos h 2
    nlinarith [sq_nonneg (d * Real.tan ELEVATION_ANGLE)]
  have hS : 0 < Real.sqrt (Dpoly (cy - fy) (Real.tan ELEVATION_ANGLE) d) :=
    Real.sqrt_pos.2 hD
  unfold forwardDist camPos Vec3.subv Vec3.normalized Vec3.len Vec3.dot Vec3.smul
  dsimp only
  have hlen : Real.sqrt ((cx - cx) ^ 2 + (cy - (fy - d)) ^ 2 +
      (cz - (cz + d * Real.tan ELEVATION_ANGLE)) ^ 2) =
      Real.sqrt (Dpoly (cy - fy) (Real.tan ELEVATION_ANGLE) d) := by
    congr 1
    unfold Dpoly
    ring
  rw [hlen, if_neg (ne_of_gt hS)]
  unfold Npoly
  field_simp
  ring

theorem convergenceLoop_exhaust (vis : ℝ → Prop) (n : ℕ) (d : ℝ)
    (h : ∀ k < n, ¬ vis (d * 1.1 ^ k)) :
    convergenceLoop vis n d = (d * 1.1 ^ n, n) := by
  induction n generalizing d with
  | zero => simp [convergenceLoop]
  | succ m ih =>
    have h0 : ¬ vis d := by simpa using h 0 (Nat.succ_pos m)
    simp only [convergenceLoop, h0, if_false]
    have hrec := ih (d * 1.1) fun k hk => by
      have hx := h (k + 1) (Nat.succ_lt_succ hk)
      have harg : d * 1.1 ^ (k + 1) = d * 1.1 * 1.1 ^ k := by ring
      rw [harg] at hx
      exact hx
    rw [hrec, Prod.mk.injEq]
    exact ⟨by ring, rfl⟩

theorem atan2_pi_div_two_lt {y x : ℝ} (hx : x < 0) (hy : 0 < y) :
    Real.pi / 2 < atan2 y x := by
  unfold atan2
  rw [if_neg (by linarith), if_pos hx, if_pos hy.le]
  have h1 := Real.neg_pi_div_two_lt_arctan (y / x)
  linarith

theorem cex_center :
    centerOf ⟨0, 0, 0⟩ ⟨1/1000, 1/20, 10⟩ = ⟨1/2000, 1/40, 5⟩ := by
  unfold centerOf
  norm_num [Vec3.mk.injEq]

theorem cex_pad : padding_bu 1 10 0 = 0 := by
  unfold padding_bu
  norm_num

theorem cex_Npoly_neg (d : ℝ) (hd : 0 < d) (hdle : d ≤ 1/50) :
    Npoly (1/40) 0 5 (Real.tan ELEVATION_ANGLE) d < 0 := by
  unfold Npoly
  have h1 := tanE_lb
  have h2 := tanE_ub
  have h0 := tanE_pos
  have ht2 : Real.tan ELEVATION_ANGLE ^ 2 < 1/16 := by nlinarith
  have hdt2 : d * Real.tan ELEVATION_ANGLE ^ 2 ≤ d * (1/16) :=
    mul_le_mul_of_nonneg_left ht2.le hd.le
  have hbr : 1/40 + d * (1 + Real.tan ELEVATION_ANGLE ^ 2) -
      5 * Real.tan ELEVATION_ANGLE < 0 := by nlinarith
  have hexp : (0 + d) * (1/40 + d) +
      d * Real.tan ELEVATION_ANGLE * (d * Real.tan ELEVATION_ANGLE - 5) =
      d * (1/40 + d * (1 + Real.tan ELEVATION_ANGLE ^ 2) -
        5 * Real.tan ELEVATION_ANGLE) := by ring
  rw [hexp]
  exact mul_neg_of_pos_of_neg hd hbr

theorem cex_Dpoly_sqrt_pos (d : ℝ) (hd : 0 < d) :
    0 < Real.sqrt (Dpoly (1/40) (Real.tan ELEVATION_ANGLE) d) := by
  refine Real.sqrt_pos.2 ?_
  unfold Dpoly
  nlinarith [sq_nonneg (d * Real.tan ELEVATION_ANGLE)]

theorem cex_fwd_neg (d : ℝ) (hd : 0 < d) (hdle : d ≤ 1/50) :
    forwardDist (Vec3.toR (centerOf ⟨0, 0, 0⟩ ⟨1/1000, 1/20, 10⟩))
      (camPos (Vec3.toR (centerOf ⟨0, 0, 0⟩ ⟨1/1000, 1/20, 10⟩))
        (((⟨0, 0, 0⟩ : Vec3 ℚ).y : ℝ)) d)
      (Vec3.toR ⟨0, 0, 10⟩) < 0 := by
  rw [cex_center]
  dsimp only [Vec3.toR]
  rw [forwardDist_eq _ _ _ _ _ _ _ _ (by push_cast; linarith)]
  have ha1 : ((1/40 : ℚ) : ℝ) - ((0 : ℚ) : ℝ) = 1/40 := by push_cast; ring
  have ha2 : ((0 : ℚ) : ℝ) - ((0 : ℚ) : ℝ) = 0 := by push_cast; ring
  have ha3 : ((10 : ℚ) : ℝ) - ((5 : ℚ) : ℝ) = 5 := by push_cast; ring
  rw [ha1, ha2, ha3]
  exact div_neg_of_neg_of_pos (cex_Npoly_neg d hd hdle) (cex_Dpoly_sqrt_pos d hd)

theorem cex_not_visible (d : ℝ) (hd : 0 < d) (hdle : d ≤ 1/50) :
    ¬ allCornersVisibleAt ⟨0, 0, 0⟩ ⟨1/1000, 1/20, 10⟩ 1 10 0 d := by
  intro hvis
  have hmem : (⟨0, 0, 10⟩ : Vec3 ℚ) ∈
      paddedCorners ⟨0, 0, 0⟩ ⟨1/1000, 1/20, 10⟩ (padding_bu 1 10 0) := by
    rw [cex_pad]
    norm_num [paddedCorners, Vec3.mk.injEq]
  have hv := hvis ⟨0, 0, 10⟩ hmem
  have hv1 : 0 < forwardDist (Vec3.toR (centerOf ⟨0, 0, 0⟩ ⟨1/1000, 1/20, 10⟩))
      (camPos (Vec3.toR (centerOf ⟨0, 0, 0⟩ ⟨1/1000, 1/20, 10⟩))
        (((⟨0, 0, 0⟩ : Vec3 ℚ).y : ℝ)) d)
      (Vec3.toR ⟨0, 0, 10⟩) := hv.1
  have := cex_fwd_neg d hd hdle
  linarith

theorem cex_aspect : aspectOf ⟨0, 0, 0⟩ ⟨1/1000, 1/20, 10⟩ 1 10 0 = 1/10000 := by
  unfold aspectOf dimsOf calculate_resolution
  norm_num
  rw [pyInt_eq_floor (by norm_num), pyInt_eq_floor (by norm_num)]
  norm_num

theorem cex_tan_hfv :
    Real.tan (half_fov_v ⟨0, 0, 0⟩ ⟨1/1000, 1/20, 10⟩ 1 10 0) = 36000/17 := by
  unfold half_fov_v
  rw [Real.tan_arctan, tan_half_fov_h_eq, cex_aspect]
  norm_num

theorem cex_seed : seedDistance ⟨0, 0, 0⟩ ⟨1/1000, 1/20, 10⟩ 1 10 0 = 17/7200 := by
  unfold seedDistance
  rw [tan_half_fov_h_eq, cex_tan_hfv, cex_pad]
  push_cast
  norm_num

theorem cex_loop :
    loopResult ⟨0, 0, 0⟩ ⟨1/1000, 1/20, 10⟩ 1 10 0 =
      ((17/7200 : ℝ) * 1.1 ^ 20, 20) := by
  unfold loopResult
  rw [cex_seed]
  refine convergenceLoop_exhaust _ 20 _ fun k hk => ?_
  refine cex_not_visible _ (by positivity) ?_
  have hk19 : k ≤ 19 := by omega
  have hpow : (1.1 : ℝ) ^ k ≤ 1.1 ^ 19 :=
    pow_le_pow_right (by norm_num) hk19
  have h19 : (17/7200 : ℝ) * 1.1 ^ 19 ≤ 1/50 := by norm_num
  nlinarith [pow_pos (show (0:ℝ) < 1.1 by norm_num) k]

theorem cex_final :
    finalDistance ⟨0, 0, 0⟩ ⟨1/1000, 1/20, 10⟩ 1 10 0 =
      (17/7200 : ℝ) * 1.1 ^ 20 * 1.05 := by
  unfold finalDistance
  rw [cex_loop]

theorem cex_final_pos : 0 < finalDistance ⟨0, 0, 0⟩ ⟨1/1000, 1/20, 10⟩ 1 10 0 := by
  rw [cex_final]
  positivity

theorem cex_final_le : finalDistance ⟨0, 0, 0⟩ ⟨1/1000, 1/20, 10⟩ 1 10 0 ≤ 1/50 := by
  rw [cex_final]
  norm_num

/-- Counterexample for C1: the 1mm × 10000mm × 50mm box passes dimension
validation and is fed to the solver with scale factor 10 and padding 0, yet
after all 20 iterations and the 1.05 buffer the front-top corner is still
behind the camera, so its vertical atan2 angle exceeds 98% of the vertical
half field of view: the claimed post-condition fails when the iteration
bound is exhausted. -/
theorem claimC1_counterexample :
    validate_collection_dimensions (boxCollection ⟨0, 0, 0⟩ ⟨1/1000, 1/20, 10⟩) 1 =
      (true, DimMsg.emptyMsg) ∧
    get_collection_bounds (boxCollection ⟨0, 0, 0⟩ ⟨1/1000, 1/20, 10⟩) =
      some (⟨0, 0, 0⟩, ⟨1/1000, 1/20, 10⟩,
        [mkBoxObj partName ⟨0, 0, 0⟩ ⟨1/1000, 1/20, 10⟩]) ∧
    (0 : ℚ) < 10 ∧ (0 : ℤ) ≤ 0 ∧
    ¬ finalFrameCornersSafe ⟨0, 0, 0⟩ ⟨1/1000, 1/20, 10⟩ 1 10 0 := by
  have hb := bounds_boxCollection ⟨0, 0, 0⟩ ⟨1/1000, 1/20, 10⟩ (by norm_num)
    (by norm_num) (by norm_num)
  refine ⟨?_, hb, by norm_num, le_refl 0, ?_⟩
  · have hd := dims_boxCollection ⟨0, 0, 0⟩ ⟨1/1000, 1/20, 10⟩ 1 (by norm_num)
      (by norm_num) (by norm_num)
    unfold validate_collection_dimensions
    rw [hd]
    norm_num
  · intro hsafe
    have hmem : (⟨0, 0, 10⟩ : Vec3 ℚ) ∈
        paddedCorners ⟨0, 0, 0⟩ ⟨1/1000, 1/20, 10⟩ (padding_bu 1 10 0) := by
      rw [cex_pad]
      norm_num [paddedCorners, Vec3.mk.injEq]
    have hv := (hsafe ⟨0, 0, 10⟩ hmem).2
    have hfwd := cex_fwd_neg (finalDistance ⟨0, 0, 0⟩ ⟨1/1000, 1/20, 10⟩ 1 10 0)
      cex_final_pos cex_final_le
    have hvoff : 0 < vOffset
        (camPos (Vec3.toR (centerOf ⟨0, 0, 0⟩ ⟨1/1000, 1/20, 10⟩))
          (((⟨0, 0, 0⟩ : Vec3 ℚ).y : ℝ))
          (finalDistance ⟨0, 0, 0⟩ ⟨1/1000, 1/20, 10⟩ 1 10 0))
        (Vec3.toR ⟨0, 0, 10⟩) := by
      rw [cex_center]
      dsimp only [Vec3.toR]
      rw [vOffset_eq]
      have h1 := cosE_pos
      have h2 := sinE_pos
      push_cast
      nlinarith
    have hgt := atan2_pi_div_two_lt hfwd hvoff
    have hfv_lt : half_fov_v ⟨0, 0, 0⟩ ⟨1/1000, 1/20, 10⟩ 1 10 0 < Real.pi / 2 := by
      unfold half_fov_v
      exact Real.arctan_lt_pi_div_two _
    have hfv_pos : 0 < half_fov_v ⟨0, 0, 0⟩ ⟨1/1000, 1/20, 10⟩ 1 10 0 := by
      unfold half_fov_v
      rw [tan_half_fov_h_eq, cex_aspect, ← Real.arctan_zero]
      apply Real.arctan_strictMono
      push_cast
      norm_num
    have habs : Real.pi / 2 < |atan2
        (vOffset (camPos (Vec3.toR (centerOf ⟨0, 0, 0⟩ ⟨1/1000, 1/20, 10⟩))
          (((⟨0, 0, 0⟩ : Vec3 ℚ).y : ℝ))
          (finalDistance ⟨0, 0, 0⟩ ⟨1/1000, 1/20, 10⟩ 1 10 0))
          (Vec3.toR ⟨0, 0, 10⟩))
        (forwardDist (Vec3.toR (centerOf ⟨0, 0, 0⟩ ⟨1/1000, 1/20, 10⟩))
          (camPos (Vec3.toR (centerOf ⟨0, 0, 0⟩ ⟨1/1000, 1/20, 10⟩))
            (((⟨0, 0, 0⟩ : Vec3 ℚ).y : ℝ))
            (finalDistance ⟨0, 0, 0⟩ ⟨1/1000, 1/20, 10⟩ 1 10 0))
          (Vec3.toR ⟨0, 0, 10⟩))| :=
      lt_of_lt_of_le hgt (le_abs_self _)
    linarith [hv, habs, hfv_lt, hfv_pos]

theorem Npoly_hasDerivAt (A u w t x : ℝ) :
    HasDerivAt (fun y => Npoly A u w t y) (u + A + 2*x + 2*x*t^2 - t*w) x := by
  have ha : HasDerivAt (fun y : ℝ => u + y) 1 x := by
    simpa using (hasDerivAt_id x).const_add u
  have hb : HasDerivAt (fun y : ℝ => A + y) 1 x := by
    simpa using (hasDerivAt_id x).const_add A
  have h1 := ha.mul hb
  have h2 : HasDerivAt (fun y : ℝ => y * t) t x := by
    simpa using (hasDerivAt_id x).mul_const t
  have h3 := h2.mul (h2.sub_const w)
  have h4 := h1.add h3
  have he : u + A + 2*x + 2*x*t^2 - t*w =
      (1 * (A + x) + (u + x) * 1) + (t * (x * t - w) + x * t * t) := by ring
  rw [he]
  exact h4

theorem Dpoly_hasDerivAt (A t x : ℝ) :
    HasDerivAt (fun y => Dpoly A t y) (2*(A + x) + 2*x*t^2) x := by
  have hb : HasDerivAt (fun y : ℝ => A + y) 1 x := by
    simpa using (hasDerivAt_id x).const_add A
  have h1 := hb.pow 2
  have h2 : HasDerivAt (fun y : ℝ => y * t) t x := by
    simpa using (hasDerivAt_id x).mul_const t
  have h3 := h2.pow 2
  have h4 := h1.add h3
  have he : 2*(A + x) + 2*x*t^2 =
      ((2 : ℕ) : ℝ) * (A + x) ^ (2 - 1) * 1 + ((2 : ℕ) : ℝ) * (x*t) ^ (2 - 1) * t := by
    push_cast
    ring
  rw [he]
  exact h4

theorem fwdQuot_hasDerivAt (A u w t x : ℝ) (hs : 0 < A + x) :
    HasDerivAt (fun y => Npoly A u w t y / Real.sqrt (Dpoly A t y))
      (((u + A + 2*x + 2*x*t^2 - t*w) * Real.sqrt (Dpoly A t x) -
        Npoly A u w t x * ((2*(A+x) + 2*x*t^2) / (2 * Real.sqrt (Dpoly A t x)))) /
        Real.sqrt (Dpoly A t x) ^ 2) x := by
  have hD : 0 < Dpoly A t x := by
    unfold Dpoly
    nlinarith [sq_nonneg (x*t)]
  have h1 := (Dpoly_hasDerivAt A t x).sqrt hD.ne'
  exact (Npoly_hasDerivAt A u w t x).div h1 (Real.sqrt_pos.2 hD).ne'

theorem fwdQuot_deriv_pos (A u w t x : ℝ) (hA : 0 ≤ A) (hu2 : u ≤ 2*A)
    (ht : 0 < t) (ht4 : t ≤ 1/4) (hx : 0 < x)
    (hv : t*w ≤ A + x*(1 + t^2)) :
    0 < ((u + A + 2*x + 2*x*t^2 - t*w) * Real.sqrt (Dpoly A t x) -
        Npoly A u w t x * ((2*(A+x) + 2*x*t^2) / (2 * Real.sqrt (Dpoly A t x)))) /
        Real.sqrt (Dpoly A t x) ^ 2 := by
  have hs : 0 < A + x := by linarith
  have hD : 0 < Dpoly A t x := by
    unfold Dpoly
    nlinarith [sq_nonneg (x*t)]
  have hS : 0 < Real.sqrt (Dpoly A t x) := Real.sqrt_pos.2 hD
  have hkey : 0 < 2 * (u + A + 2*x + 2*x*t^2 - t*w) * Dpoly A t x -
      Npoly A u w t x * (2*(A+x) + 2*x*t^2) := by
    unfold Npoly Dpoly
    have ht2 : t^2 ≤ 1/16 := by nlinarith
    have hR : 0 ≤ A + x + x*t^2 - t*w := by nlinarith [sq_nonneg t]
    nlinarith [mul_pos hx (mul_pos hs hs),
      mul_nonneg (mul_nonneg hA hR) hs.le,
      mul_nonneg (mul_nonneg (mul_nonneg hx.le (sq_nonneg t))
        (sub_nonneg.2 (by linarith : A ≤ A + x))) hs.le,
      mul_nonneg (mul_nonneg (mul_nonneg hx.le (sq_nonneg t)) hA)
        (sub_nonneg.2 hu2),
      mul_nonneg (mul_nonneg (mul_nonneg hx.le (sq_nonneg t)) hA)
        (sub_nonneg.2 (by linarith : x ≤ A + x)),
      mul_nonneg (mul_nonneg hx.le (sq_nonneg t)) (sq_nonneg (A+x)),
      mul_nonneg (mul_nonneg (mul_pos hx hx).le (sq_nonneg t)) (sq_nonneg t),
      mul_pos (mul_pos hx hx) hx,
      sq_nonneg (x*t)]
  have hnum_mul : ((u + A + 2*x + 2*x*t^2 - t*w) * Real.sqrt (Dpoly A t x) -
      Npoly A u w t x * ((2*(A+x) + 2*x*t^2) / (2 * Real.sqrt (Dpoly A t x)))) *
        (2 * Real.sqrt (Dpoly A t x)) =
      2 * (u + A + 2*x + 2*x*t^2 - t*w) * Dpoly A t x -
        Npoly A u w t x * (2*(A+x) + 2*x*t^2) := by
    have hss : Real.sqrt (Dpoly A t x) * Real.sqrt (Dpoly A t x) = Dpoly A t x :=
      Real.mul_self_sqrt hD.le
    have h2S : (0:ℝ) < 2 * Real.sqrt (Dpoly A t x) := by linarith
    have hdm : (2*(A+x) + 2*x*t^2) / (2 * Real.sqrt (Dpoly A t x)) *
        (2 * Real.sqrt (Dpoly A t x)) = 2*(A+x) + 2*x*t^2 :=
      div_mul_cancel₀ _ h2S.ne'
    calc ((u + A + 2*x + 2*x*t^2 - t*w) * Real.sqrt (Dpoly A t x) -
          Npoly A u w t x * ((2*(A+x) + 2*x*t^2) / (2 * Real.sqrt (Dpoly A t x)))) *
            (2 * Real.sqrt (Dpoly A t x)) =
        2 * (u + A + 2*x + 2*x*t^2 - t*w) *
            (Real.sqrt (Dpoly A t x) * Real.sqrt (Dpoly A t x)) -
          Npoly A u w t x * ((2*(A+x) + 2*x*t^2) /
            (2 * Real.sqrt (Dpoly A t x)) * (2 * Real.sqrt (Dpoly A t x))) := by
          ring
      _ = 2 * (u + A + 2*x + 2*x*t^2 - t*w) * Dpoly A t x -
          Npoly A u w t x * (2*(A+x) + 2*x*t^2) := by rw [hss, hdm]
  have hnum : 0 < (u + A + 2*x + 2*x*t^2 - t*w) * Real.sqrt (Dpoly A t x) -
      Npoly A u w t x * ((2*(A+x) + 2*x*t^2) / (2 * Real.sqrt (Dpoly A t x))) := by
    by_contra hcon
    push_neg at hcon
    have h2S : 0 < 2 * Real.sqrt (Dpoly A t x) := by linarith
    nlinarith [mul_nonpos_of_nonpos_of_nonneg hcon h2S.le]
  exact div_pos hnum (pow_pos hS 2)

theorem fwdQuot_mono (A u w t : ℝ) (hA : 0 ≤ A) (hu2 : u ≤ 2*A)
    (ht : 0 < t) (ht4 : t ≤ 1/4) {d₁ d₂ : ℝ} (hd1 : 0 < d₁) (h12 : d₁ ≤ d₂)
    (hv : t*w ≤ A + d₁*(1 + t^2)) :
    Npoly A u w t d₁ / Real.sqrt (Dpoly A t d₁) ≤
      Npoly A u w t d₂ / Real.sqrt (Dpoly A t d₂) := by
  rcases eq_or_lt_of_le h12 with rfl | hlt
  · exact le_refl _
  have hmono : StrictMonoOn (fun y => Npoly A u w t y / Real.sqrt (Dpoly A t y))
      (Set.Icc d₁ d₂) := by
    refine strictMonoOn_of_deriv_pos (convex_Icc d₁ d₂) ?_ ?_
    · intro z hz
      have hz1 : 0 < z := lt_of_lt_of_le hd1 hz.1
      have hsz : 0 < A + z := by linarith
      exact ((fwdQuot_hasDerivAt A u w t z hsz).differentiableAt).continuousAt.continuousWithinAt
    · intro z hz
      rw [interior_Icc] at hz
      have hz1 : 0 < z := lt_trans hd1 hz.1
      have hsz : 0 < A + z := by linarith
      rw [(fwdQuot_hasDerivAt A u w t z hsz).deriv]
      refine fwdQuot_deriv_pos A u w t z hA hu2 ht ht4 hz1 ?_
      have hmono2 : A + d₁*(1+t^2) ≤ A + z*(1+t^2) := by
        nlinarith [sq_nonneg t, hz.1.le]
      linarith
  exact (hmono (Set.left_mem_Icc.2 h12) (Set.right_mem_Icc.2 h12) hlt).le

theorem visible_pos_dist (mn mx : Vec3 ℚ) (ρ s : ℚ) (p : ℤ) (d : ℝ)
    (hd0 : 0 ≤ d)
    (hfwd : 0 < forwardDist (Vec3.toR (centerOf mn mx))
        (camPos (Vec3.toR (centerOf mn mx)) ((mn.y : ℝ)) d)
        (Vec3.toR ⟨mn.x - padding_bu ρ s p, mn.y, mn.z - padding_bu ρ s p⟩)) :
    0 < d := by
  rcases eq_or_lt_of_le hd0 with heq | h
  · exfalso
    rw [← heq] at hfwd
    unfold forwardDist at hfwd
    by_cases hlen : (Vec3.subv (Vec3.toR (centerOf mn mx))
        (camPos (Vec3.toR (centerOf mn mx)) ((mn.y : ℝ)) 0)).len = 0
    · unfold Vec3.normalized at hfwd
      rw [if_pos hlen] at hfwd
      unfold Vec3.dot at hfwd
      simp at hfwd
    · unfold Vec3.normalized at hfwd
      rw [if_neg hlen] at hfwd
      unfold Vec3.dot Vec3.smul Vec3.subv camPos Vec3.toR centerOf at hfwd
      dsimp only at hfwd
      ring_nf at hfwd
      exact absurd hfwd (lt_irrefl 0)
  · exact h

theorem fwd_mono_vec (mn mx : Vec3 ℚ) (ρ s : ℚ) (p : ℤ) (d : ℝ) (qx qy qz : ℚ)
    (hy : mn.y ≤ mx.y) (hzz : mn.z ≤ mx.z) (hpad : 0 ≤ padding_bu ρ s p)
    (hd : 0 < d)
    (hu : qy = mn.y ∨ qy = mx.y)
    (hw : qz = mx.z + padding_bu ρ s p ∨ qz = mn.z - padding_bu ρ s p)
    (hc2 : 0 < forwardDist (Vec3.toR (centerOf mn mx))
        (camPos (Vec3.toR (centerOf mn mx)) ((mn.y : ℝ)) d)
        (Vec3.toR ⟨mn.x - padding_bu ρ s p, mn.y, mx.z + padding_bu ρ s p⟩)) :
    forwardDist (Vec3.toR (centerOf mn mx))
        (camPos (Vec3.toR (centerOf mn mx)) ((mn.y : ℝ)) d)
        (Vec3.toR ⟨qx, qy, qz⟩) ≤
      forwardDist (Vec3.toR (centerOf mn mx))
        (camPos (Vec3.toR (centerOf mn mx)) ((mn.y : ℝ)) (d * 1.05))
        (Vec3.toR ⟨qx, qy, qz⟩) := by
  have hyR : ((mn.y : ℚ) : ℝ) ≤ ((mx.y : ℚ) : ℝ) := by exact_mod_cast hy
  have hzR : ((mn.z : ℚ) : ℝ) ≤ ((mx.z : ℚ) : ℝ) := by exact_mod_cast hzz
  dsimp only [Vec3.toR, centerOf] at hc2 ⊢
  have hA0 : (0:ℝ) ≤ (((mx.y + mn.y)/2 : ℚ) : ℝ) - ((mn.y : ℚ) : ℝ) := by
    push_cast
    linarith
  have hcond1 : (0:ℝ) < (((mx.y + mn.y)/2 : ℚ) : ℝ) - ((mn.y : ℚ) : ℝ) + d := by
    linarith
  have hcond2 : (0:ℝ) < (((mx.y + mn.y)/2 : ℚ) : ℝ) - ((mn.y : ℚ) : ℝ) + d * 1.05 := by
    nlinarith
  rw [forwardDist_eq _ _ _ _ _ _ _ _ hcond1] at hc2
  rw [forwardDist_eq _ _ _ _ _ _ _ _ hcond1, forwardDist_eq _ _ _ _ _ _ _ _ hcond2]
  have hNc2 : 0 < Npoly ((((mx.y + mn.y)/2 : ℚ) : ℝ) - ((mn.y : ℚ) : ℝ))
      (((mn.y : ℚ) : ℝ) - ((mn.y : ℚ) : ℝ))
      (((mx.z + padding_bu ρ s p : ℚ) : ℝ) - (((mx.z + mn.z)/2 : ℚ) : ℝ))
      (Real.tan ELEVATION_ANGLE) d := by
    rcases div_pos_iff.1 hc2 with ⟨hn, -⟩ | ⟨-, hcon⟩
    · exact hn
    · exact absurd hcon (not_lt.2 (Real.sqrt_nonneg _))
  have hconstr : Real.tan ELEVATION_ANGLE *
      (((mx.z + padding_bu ρ s p : ℚ) : ℝ) - (((mx.z + mn.z)/2 : ℚ) : ℝ)) ≤
      ((((mx.y + mn.y)/2 : ℚ) : ℝ) - ((mn.y : ℚ) : ℝ)) +
        d * (1 + Real.tan ELEVATION_ANGLE ^ 2) := by
    rw [sub_self] at hNc2
    unfold Npoly at hNc2
    by_contra hcon
    push_neg at hcon
    nlinarith [hNc2, hd]
  have hpadR : (0:ℝ) ≤ ((padding_bu ρ s p : ℚ) : ℝ) := by exact_mod_cast hpad
  have ht := tanE_pos
  have ht4 := tanE_ub.le
  have hu2 : ((qy : ℚ) : ℝ) - ((mn.y : ℚ) : ℝ) ≤
      2 * ((((mx.y + mn.y)/2 : ℚ) : ℝ) - ((mn.y : ℚ) : ℝ)) := by
    rcases hu with rfl | rfl <;> (push_cast; linarith)
  have hv : Real.tan ELEVATION_ANGLE *
      (((qz : ℚ) : ℝ) - (((mx.z + mn.z)/2 : ℚ) : ℝ)) ≤
      ((((mx.y + mn.y)/2 : ℚ) : ℝ) - ((mn.y : ℚ) : ℝ)) +
        d * (1 + Real.tan ELEVATION_ANGLE ^ 2) := by
    rcases hw with rfl | rfl
    · exact hconstr
    · have hwneg : ((mn.z - padding_bu ρ s p : ℚ) : ℝ) -
          (((mx.z + mn.z)/2 : ℚ) : ℝ) ≤ 0 := by
        push_cast
        linarith
      have h1 : Real.tan ELEVATION_ANGLE *
          (((mn.z - padding_bu ρ s p : ℚ) : ℝ) - (((mx.z + mn.z)/2 : ℚ) : ℝ)) ≤ 0 :=
        mul_nonpos_of_nonneg_of_nonpos ht.le hwneg
      nlinarith [sq_nonneg (Real.tan ELEVATION_ANGLE)]
  exact fwdQuot_mono _ _ _ _ hA0 hu2 ht ht4 hd (by nlinarith) hv

theorem corner_goal (mn mx : Vec3 ℚ) (ρ s : ℚ) (p : ℤ) (hfh hfv d df : ℝ)
    (qx qy qz : ℚ)
    (hy : mn.y ≤ mx.y) (hzz : mn.z ≤ mx.z) (hpad : 0 ≤ padding_bu ρ s p)
    (hd : 0 < d) (hdf : df = d * 1.05)
    (hu : qy = mn.y ∨ qy = mx.y)
    (hw : qz = mx.z + padding_bu ρ s p ∨ qz = mn.z - padding_bu ρ s p)
    (hc2 : 0 < forwardDist (Vec3.toR (centerOf mn mx))
        (camPos (Vec3.toR (centerOf mn mx)) ((mn.y : ℝ)) d)
        (Vec3.toR ⟨mn.x - padding_bu ρ s p, mn.y, mx.z + padding_bu ρ s p⟩))
    (hOk : cornerOk hfh hfv (Vec3.toR (centerOf mn mx)) ((mn.y : ℝ)) d
        (Vec3.toR ⟨qx, qy, qz⟩)) :
    cornerWithinFov hfh hfv (Vec3.toR (centerOf mn mx)) ((mn.y : ℝ)) df
      (Vec3.toR ⟨qx, qy, qz⟩) := by
  subst hdf
  obtain ⟨hfwd, hH, hV⟩ := hOk
  have hm := fwd_mono_vec mn mx ρ s p d qx qy qz hy hzz hpad hd hu hw hc2
  constructor
  · have hxeq : (Vec3.toR ⟨qx, qy, qz⟩).x -
        (camPos (Vec3.toR (centerOf mn mx)) ((mn.y : ℝ)) (d * 1.05)).x =
        (Vec3.toR ⟨qx, qy, qz⟩).x -
        (camPos (Vec3.toR (centerOf mn mx)) ((mn.y : ℝ)) d).x := rfl
    rw [hxeq]
    exact le_trans (abs_atan2_mono hfwd hm) hH
  · have hveq : vOffset (camPos (Vec3.toR (centerOf mn mx)) ((mn.y : ℝ)) (d * 1.05))
        (Vec3.toR ⟨qx, qy, qz⟩) =
        vOffset (camPos (Vec3.toR (centerOf mn mx)) ((mn.y : ℝ)) d)
          (Vec3.toR ⟨qx, qy, qz⟩) := by
      dsimp only [Vec3.toR, centerOf]
      rw [vOffset_eq, vOffset_eq]
    rw [hveq]
    exact le_trans (abs_atan2_mono hfwd hm) hV

/-- C1 (amended): when the corner-visibility test holds at the distance the
convergence loop returns (the loop exited through the all-corners-visible
break), the final camera frame — after the trailing 1.05 distance
multiplier — keeps every one of the 8 padding-inflated bounding-box corners
within 98% of both half fields of view, with the angles computed exactly as
the loop computes them. The original claim fails when the 20-iteration
bound is exhausted (see the counterexample); this amended form does not
even need the dimension-validation hypotheses. -/
theorem claimC1 (mn mx : Vec3 ℚ) (ρ s : ℚ) (p : ℤ)
    (hxx : mn.x ≤ mx.x) (hy : mn.y ≤ mx.y) (hz : mn.z ≤ mx.z)
    (hρ : 0 < ρ) (hs : 0 < s) (hp : 0 ≤ p)
    (hvis : allCornersVisibleAt mn mx ρ s p (loopResult mn mx ρ s p).1) :
    finalFrameCornersSafe mn mx ρ s p := by
  have hpadn : (0:ℚ) ≤ padding_bu ρ s p := by
    unfold padding_bu
    positivity
  have hdL0 : 0 ≤ (loopResult mn mx ρ s p).1 := by
    unfold loopResult
    rw [convergenceLoop_dist]
    exact mul_nonneg (seedDistance_nonneg hxx hρ hs hp)
      (pow_nonneg (by norm_num) _)
  have hmem0 : (⟨mn.x - padding_bu ρ s p, mn.y, mn.z - padding_bu ρ s p⟩ :
      Vec3 ℚ) ∈ paddedCorners mn mx (padding_bu ρ s p) := by
    unfold paddedCorners
    exact List.mem_cons_self _ _
  have hmem2 : (⟨mn.x - padding_bu ρ s p, mn.y, mx.z + padding_bu ρ s p⟩ :
      Vec3 ℚ) ∈ paddedCorners mn mx (padding_bu ρ s p) := by
    unfold paddedCorners
    simp
  have hfwd0 := (hvis _ hmem0).1
  have hdL := visible_pos_dist mn mx ρ s p _ hdL0 hfwd0
  have hc2 := (hvis _ hmem2).1
  unfold finalFrameCornersSafe
  intro corner hmem
  have hOk := hvis corner hmem
  have hdf : finalDistance mn mx ρ s p = (loopResult mn mx ρ s p).1 * 1.05 := rfl
  unfold paddedCorners at hmem
  simp only [List.mem_cons, List.not_mem_nil, or_false] at hmem
  rcases hmem with rfl | rfl | rfl | rfl | rfl | rfl | rfl | rfl <;>
    exact corner_goal mn mx ρ s p _ _ _ _ _ _ _ hy hz hpadn hdL hdf
      (by first | exact Or.inl rfl | exact Or.inr rfl)
      (by first | exact Or.inl rfl | exact Or.inr rfl) hc2 hOk

/-! Supporting development for the C1 witness: a degenerate point box at the
origin with unit scene scale, scale factor 10 and 10 px of padding.  The
closed-form seed distance fails the horizontal corner test (the seed ignores
the camera's backwards offset from the front face), one 10% step restores
visibility for all 8 corners, so the loop exits through the visibility break
after exactly one iteration and the amended C1 theorem applies. -/

theorem tanE_lb2 : (207/1000 : ℝ) < Real.tan ELEVATION_ANGLE := by
  have hE1 : ELEVATION_ANGLE ≤ 1 := by linarith [elevation_ub]
  have hcube := Real.sin_gt_sub_cube elevation_pos hE1
  have hE3 : ELEVATION_ANGLE ^ 3 ≤ (2095/10000 : ℝ) ^ 3 :=
    pow_le_pow_left elevation_pos.le (by linarith [elevation_ub]) 3
  have hs : (207/1000 : ℝ) < Real.sin ELEVATION_ANGLE := by
    nlinarith [elevation_lb]
  have hc1 : Real.cos ELEVATION_ANGLE ≤ 1 := Real.cos_le_one _
  rw [Real.tan_eq_sin_div_cos]
  calc (207/1000 : ℝ) < Real.sin ELEVATION_ANGLE := hs
    _ = Real.sin ELEVATION_ANGLE / 1 := by ring
    _ ≤ Real.sin ELEVATION_ANGLE / Real.cos ELEVATION_ANGLE :=
        div_le_div_of_nonneg_left sinE_pos.le cosE_pos hc1

theorem tanE_ub2 : Real.tan ELEVATION_ANGLE < (2143/10000 : ℝ) := by
  have hcos := Real.one_sub_sq_div_two_le_cos (x := ELEVATION_ANGLE)
  have hsin := Real.sin_le elevation_pos.le
  have hE2 : ELEVATION_ANGLE ^ 2 ≤ (2095/10000 : ℝ) ^ 2 :=
    pow_le_pow_left elevation_pos.le (by linarith [elevation_ub]) 2
  rw [Real.tan_eq_sin_div_cos, div_lt_iff cosE_pos]
  nlinarith [elevation_ub]

theorem arctan_ge_div (x : ℝ) (hx : 0 ≤ x) :
    x / (1 + x ^ 2) ≤ Real.arctan x := by
  have h0 : (0:ℝ) ≤ Real.arctan x := by
    have h := Real.arctan_strictMono.monotone hx
    rwa [Real.arctan_zero] at h
  have hsin := Real.sin_le (by linarith : (0:ℝ) ≤ 2 * Real.arctan x)
  rw [Real.sin_two_mul, Real.sin_arctan, Real.cos_arctan] at hsin
  have hs : Real.sqrt (1 + x ^ 2) * Real.sqrt (1 + x ^ 2) = 1 + x ^ 2 :=
    Real.mul_self_sqrt (by positivity)
  have hsp : 0 < Real.sqrt (1 + x ^ 2) := Real.sqrt_pos.2 (by positivity)
  have key : 2 * (x / Real.sqrt (1 + x ^ 2)) * (1 / Real.sqrt (1 + x ^ 2)) =
      2 * x / (Real.sqrt (1 + x ^ 2) * Real.sqrt (1 + x ^ 2)) := by
    field_simp
  rw [key, hs] at hsin
  have h2 : 2 * x / (1 + x ^ 2) = 2 * (x / (1 + x ^ 2)) := by ring
  rw [h2] at hsin
  linarith

theorem wit_hfh_eq : half_fov_h = Real.arctan (18/85) := by
  unfold half_fov_h SENSOR_WIDTH FOCAL_LENGTH
  norm_num

theorem hfh_pos : 0 < half_fov_h := by
  rw [wit_hfh_eq]
  have h := Real.arctan_strictMono (show (0:ℝ) < 18/85 by norm_num)
  rwa [Real.arctan_zero] at h

theorem hfh_lt : half_fov_h < Real.pi / 2 := by
  rw [wit_hfh_eq]
  exact Real.arctan_lt_pi_div_two _

theorem hfh_lb : (1530/7549 : ℝ) ≤ half_fov_h := by
  rw [wit_hfh_eq]
  have h := arctan_ge_div (18/85) (by norm_num)
  calc (1530/7549 : ℝ) = (18/85) / (1 + (18/85) ^ 2) := by norm_num
    _ ≤ Real.arctan (18/85) := h

theorem wit_pad : padding_bu 1 10 10 = 1/1000 := by
  unfold padding_bu
  norm_num

theorem wit_center : centerOf ⟨0, 0, 0⟩ ⟨0, 0, 0⟩ = (⟨0, 0, 0⟩ : Vec3 ℚ) := by
  unfold centerOf
  norm_num [Vec3.mk.injEq]

theorem wit_aspect : aspectOf ⟨0, 0, 0⟩ ⟨0, 0, 0⟩ 1 10 10 = 1 := by
  unfold aspectOf dimsOf calculate_resolution
  norm_num
  rw [pyInt_eq_floor (by norm_num)]
  norm_num

theorem wit_hfv : half_fov_v ⟨0, 0, 0⟩ ⟨0, 0, 0⟩ 1 10 10 = half_fov_h := by
  unfold half_fov_v
  rw [wit_aspect, tan_half_fov_h_eq, wit_hfh_eq]
  norm_num

theorem wit_seed : seedDistance ⟨0, 0, 0⟩ ⟨0, 0, 0⟩ 1 10 10 = 17/3600 := by
  unfold seedDistance
  rw [wit_hfv, tan_half_fov_h_eq, wit_pad]
  push_cast
  norm_num

theorem wit_fwd_eq (d : ℝ) (qx qy qz : ℚ) (hd : 0 < d) :
    forwardDist (Vec3.toR (centerOf ⟨0, 0, 0⟩ ⟨0, 0, 0⟩))
      (camPos (Vec3.toR (centerOf ⟨0, 0, 0⟩ ⟨0, 0, 0⟩)) (((0 : ℚ) : ℝ)) d)
      (Vec3.toR ⟨qx, qy, qz⟩) =
    Npoly 0 ((qy : ℝ)) ((qz : ℝ)) (Real.tan ELEVATION_ANGLE) d /
      Real.sqrt (Dpoly 0 (Real.tan ELEVATION_ANGLE) d) := by
  rw [wit_center]
  dsimp only [Vec3.toR]
  rw [forwardDist_eq _ _ _ _ _ _ _ _ (by push_cast; linarith)]
  norm_num

theorem wit_xoff (d : ℝ) (qx qy qz : ℚ) :
    (Vec3.toR ⟨qx, qy, qz⟩).x -
      (camPos (Vec3.toR (centerOf ⟨0, 0, 0⟩ ⟨0, 0, 0⟩)) (((0 : ℚ) : ℝ)) d).x =
      ((qx : ℝ)) := by
  rw [wit_center]
  dsimp only [Vec3.toR, camPos]
  push_cast
  ring

theorem wit_voff (d : ℝ) (qx qy qz : ℚ) :
    vOffset (camPos (Vec3.toR (centerOf ⟨0, 0, 0⟩ ⟨0, 0, 0⟩)) (((0 : ℚ) : ℝ)) d)
        (Vec3.toR ⟨qx, qy, qz⟩) =
      (qz : ℝ) * Real.cos ELEVATION_ANGLE +
        (qy : ℝ) * Real.sin ELEVATION_ANGLE := by
  rw [wit_center]
  dsimp only [Vec3.toR]
  rw [vOffset_eq]
  push_cast
  ring

theorem wit_angle (y F : ℝ) (hy : |y| ≤ 1/1000) (hF : (127/25000 : ℝ) ≤ F) :
    |atan2 y F| ≤ half_fov_h * 0.98 := by
  have hF0 : (0:ℝ) < F := lt_of_lt_of_le (by norm_num) hF
  unfold atan2
  rw [if_pos hF0, abs_arctan]
  have h1 : |y / F| ≤ (1/1000) / (127/25000) := by
    rw [abs_div, abs_of_pos hF0]
    exact div_le_div (by norm_num) hy (by norm_num) hF
  have hb1 : 0 < half_fov_h * 0.98 := by nlinarith [hfh_pos]
  have hb2 : half_fov_h * 0.98 < Real.pi / 2 := by nlinarith [hfh_lt, hfh_pos]
  have h3 : ((1/1000 : ℝ) / (127/25000)) ≤ Real.tan (half_fov_h * 0.98) := by
    have hlt := Real.lt_tan hb1 hb2
    have hge : (1530/7549 : ℝ) * 0.98 ≤ half_fov_h * 0.98 := by
      nlinarith [hfh_lb]
    calc ((1/1000 : ℝ) / (127/25000)) ≤ (1530/7549) * 0.98 := by norm_num
      _ ≤ half_fov_h * 0.98 := hge
      _ ≤ Real.tan (half_fov_h * 0.98) := hlt.le
  have h4 : Real.arctan ((1/1000) / (127/25000)) ≤ half_fov_h * 0.98 := by
    have h5 := Real.arctan_strictMono.monotone h3
    rwa [Real.arctan_tan (by linarith [Real.pi_pos, hb1]) hb2] at h5
  exact le_trans (Real.arctan_strictMono.monotone h1) h4

theorem wit_fwd_lb (qy qz : ℚ) (hqy : qy = 0) (hqz : |qz| ≤ 1/1000) :
    (127/25000 : ℝ) ≤
      Npoly 0 ((qy : ℝ)) ((qz : ℝ)) (Real.tan ELEVATION_ANGLE) (187/36000) /
        Real.sqrt (Dpoly 0 (Real.tan ELEVATION_ANGLE) (187/36000)) := by
  subst hqy
  have ht1 := tanE_lb2
  have ht2 := tanE_ub2
  have ht0 := tanE_pos
  set t := Real.tan ELEVATION_ANGLE with hts
  have ht1sq : (207/1000 : ℝ) ^ 2 < t ^ 2 :=
    pow_lt_pow_left ht1 (by norm_num) (by norm_num)
  have ht2sq : t ^ 2 < (2143/10000 : ℝ) ^ 2 :=
    pow_lt_pow_left ht2 ht0.le (by norm_num)
  have hqzR : ((qz : ℝ)) ≤ 1/1000 := by
    have h := (abs_le.1 hqz).2
    rw [show (1/1000 : ℝ) = ((1/1000 : ℚ) : ℝ) by norm_num]
    exact_mod_cast h
  have hN : (27/1000000 : ℝ) ≤ Npoly 0 (((0:ℚ) : ℝ)) ((qz : ℝ)) t (187/36000) := by
    unfold Npoly
    push_cast
    nlinarith [ht1sq, ht2, ht0, mul_le_mul_of_nonneg_left hqzR ht0.le]
  have hD_pos : 0 < Dpoly 0 t (187/36000) := by
    unfold Dpoly
    nlinarith [sq_nonneg ((187:ℝ)/36000 * t)]
  have hsq_pos : 0 < Real.sqrt (Dpoly 0 t (187/36000)) := Real.sqrt_pos.2 hD_pos
  have hD_ub : Dpoly 0 t (187/36000) ≤ ((2557/2500) * (187/36000) : ℝ) ^ 2 := by
    unfold Dpoly
    nlinarith [ht2sq, ht0]
  have hsq_ub : Real.sqrt (Dpoly 0 t (187/36000)) ≤ (2557/2500) * (187/36000) := by
    calc Real.sqrt (Dpoly 0 t (187/36000)) ≤
        Real.sqrt (((2557/2500) * (187/36000) : ℝ) ^ 2) := Real.sqrt_le_sqrt hD_ub
      _ = (2557/2500) * (187/36000) := Real.sqrt_sq (by norm_num)
  have hN0 : (0:ℝ) ≤ Npoly 0 (((0:ℚ) : ℝ)) ((qz : ℝ)) t (187/36000) :=
    le_trans (by norm_num) hN
  calc (127/25000 : ℝ) ≤ (27/1000000) / ((2557/2500) * (187/36000)) := by norm_num
    _ ≤ Npoly 0 (((0:ℚ) : ℝ)) ((qz : ℝ)) t (187/36000) /
        ((2557/2500) * (187/36000)) :=
      div_le_div hN0 hN (by norm_num) le_rfl
    _ ≤ Npoly 0 (((0:ℚ) : ℝ)) ((qz : ℝ)) t (187/36000) /
        Real.sqrt (Dpoly 0 t (187/36000)) :=
      div_le_div_of_nonneg_left hN0 hsq_pos hsq_ub

theorem wit_ok (qx qy qz : ℚ) (hqx : |qx| ≤ 1/1000) (hqy : qy = 0)
    (hqz : |qz| ≤ 1/1000) :
    cornerOk half_fov_h (half_fov_v ⟨0, 0, 0⟩ ⟨0, 0, 0⟩ 1 10 10)
      (Vec3.toR (centerOf ⟨0, 0, 0⟩ ⟨0, 0, 0⟩)) (((⟨0, 0, 0⟩ : Vec3 ℚ).y : ℝ))
      ((17/3600 : ℝ) * 1.1) (Vec3.toR ⟨qx, qy, qz⟩) := by
  subst hqy
  unfold cornerOk
  rw [wit_hfv]
  rw [show ((17/3600 : ℝ) * 1.1) = 187/36000 by norm_num]
  dsimp only
  rw [wit_fwd_eq (187/36000) qx 0 qz (by norm_num), wit_xoff (187/36000) qx 0 qz,
    wit_voff (187/36000) qx 0 qz]
  have hF := wit_fwd_lb 0 qz rfl hqz
  have hqxR : |((qx : ℚ) : ℝ)| ≤ 1/1000 := by
    rw [show (1/1000 : ℝ) = ((1/1000 : ℚ) : ℝ) by norm_num]
    exact_mod_cast hqx
  have hvb : |(qz : ℝ) * Real.cos ELEVATION_ANGLE +
      (((0:ℚ) : ℝ)) * Real.sin ELEVATION_ANGLE| ≤ 1/1000 := by
    have h1 : |((qz : ℚ) : ℝ)| ≤ 1/1000 := by
      rw [show (1/1000 : ℝ) = ((1/1000 : ℚ) : ℝ) by norm_num]
      exact_mod_cast hqz
    push_cast
    rw [zero_mul, add_zero, abs_mul, abs_of_pos cosE_pos]
    nlinarith [Real.cos_le_one ELEVATION_ANGLE, cosE_pos, abs_nonneg ((qz : ℚ) : ℝ)]
  exact ⟨lt_of_lt_of_le (by norm_num) hF, wit_angle _ _ hqxR hF,
    wit_angle _ _ hvb hF⟩

theorem wit_visible :
    allCornersVisibleAt ⟨0, 0, 0⟩ ⟨0, 0, 0⟩ 1 10 10 ((17/3600 : ℝ) * 1.1) := by
  unfold allCornersVisibleAt
  intro corner hmem
  rw [wit_pad] at hmem
  unfold paddedCorners at hmem
  simp only [List.mem_cons, List.not_mem_nil, or_false] at hmem
  rcases hmem with rfl | rfl | rfl | rfl | rfl | rfl | rfl | rfl <;>
    exact wit_ok _ _ _ (by rw [abs_le]; constructor <;> norm_num) (by norm_num)
      (by rw [abs_le]; constructor <;> norm_num)

theorem wit_not_vis :
    ¬ allCornersVisibleAt ⟨0, 0, 0⟩ ⟨0, 0, 0⟩ 1 10 10 (17/3600 : ℝ) := by
  intro hvis
  have hmem : (⟨1/1000, 0, 1/1000⟩ : Vec3 ℚ) ∈
      paddedCorners ⟨0, 0, 0⟩ ⟨0, 0, 0⟩ (padding_bu 1 10 10) := by
    rw [wit_pad]
    norm_num [paddedCorners, Vec3.mk.injEq]
  have hv := hvis _ hmem
  obtain ⟨hfwd, hH, -⟩ := hv
  dsimp only at hfwd hH
  rw [wit_fwd_eq (17/3600) (1/1000) 0 (1/1000) (by norm_num)] at hfwd hH
  rw [wit_xoff (17/3600) (1/1000) 0 (1/1000)] at hH
  have ht1 := tanE_lb2
  have ht2 := tanE_ub2
  have ht0 := tanE_pos
  set t := Real.tan ELEVATION_ANGLE with hts
  have ht1sq : (207/1000 : ℝ) ^ 2 < t ^ 2 :=
    pow_lt_pow_left ht1 (by norm_num) (by norm_num)
  have ht2sq : t ^ 2 < (2143/10000 : ℝ) ^ 2 :=
    pow_lt_pow_left ht2 ht0.le (by norm_num)
  have ht3 : (207/1000 : ℝ) ^ 3 < t ^ 3 :=
    pow_lt_pow_left ht1 (by norm_num) (by norm_num)
  have ht4 : t ^ 4 < (2143/10000 : ℝ) ^ 4 :=
    pow_lt_pow_left ht2 ht0.le (by norm_num)
  have hD_pos : 0 < Dpoly 0 t (17/3600) := by
    unfold Dpoly
    nlinarith [sq_nonneg ((17:ℝ)/3600 * t)]
  have hsq_pos : 0 < Real.sqrt (Dpoly 0 t (17/3600)) := Real.sqrt_pos.2 hD_pos
  have hN_pos : 0 < Npoly 0 (((0:ℚ) : ℝ)) (((1/1000 : ℚ)) : ℝ) t (17/3600) := by
    rcases div_pos_iff.1 hfwd with ⟨hn, -⟩ | ⟨-, hcon⟩
    · exact hn
    · exact absurd hcon (not_lt.2 (Real.sqrt_nonneg _))
  have hNsq : Npoly 0 (((0:ℚ) : ℝ)) (((1/1000 : ℚ)) : ℝ) t (17/3600) ^ 2 <
      ((17/3600 : ℝ)) ^ 2 * Dpoly 0 t (17/3600) := by
    unfold Npoly Dpoly
    push_cast
    nlinarith [ht1, ht2sq, ht3, ht4]
  have hlt : Npoly 0 (((0:ℚ) : ℝ)) (((1/1000 : ℚ)) : ℝ) t (17/3600) <
      (17/3600) * Real.sqrt (Dpoly 0 t (17/3600)) := by
    have h1 : Npoly 0 (((0:ℚ) : ℝ)) (((1/1000 : ℚ)) : ℝ) t (17/3600) <
        Real.sqrt (((17/3600 : ℝ)) ^ 2 * Dpoly 0 t (17/3600)) :=
      (Real.lt_sqrt hN_pos.le).2 hNsq
    rwa [Real.sqrt_mul (by positivity) _, Real.sqrt_sq (by norm_num)] at h1
  have hFlt : Npoly 0 (((0:ℚ) : ℝ)) (((1/1000 : ℚ)) : ℝ) t (17/3600) /
      Real.sqrt (Dpoly 0 t (17/3600)) < 17/3600 :=
    (div_lt_iff hsq_pos).2 hlt
  have hxpos : (0:ℝ) < (((1/1000 : ℚ)) : ℝ) := by norm_num
  have harc : half_fov_h ≤ Real.arctan ((((1/1000 : ℚ)) : ℝ) /
      (Npoly 0 (((0:ℚ) : ℝ)) (((1/1000 : ℚ)) : ℝ) t (17/3600) /
        Real.sqrt (Dpoly 0 t (17/3600)))) := by
    rw [wit_hfh_eq]
    apply Real.arctan_strictMono.monotone
    rw [le_div_iff₀ hfwd]
    push_cast
    nlinarith [hFlt, hfwd]
  have heval : |atan2 ((((1/1000 : ℚ)) : ℝ))
      (Npoly 0 (((0:ℚ) : ℝ)) (((1/1000 : ℚ)) : ℝ) t (17/3600) /
        Real.sqrt (Dpoly 0 t (17/3600)))| =
      Real.arctan ((((1/1000 : ℚ)) : ℝ) /
      (Npoly 0 (((0:ℚ) : ℝ)) (((1/1000 : ℚ)) : ℝ) t (17/3600) /
        Real.sqrt (Dpoly 0 t (17/3600)))) := by
    unfold atan2
    rw [if_pos hfwd, abs_arctan, abs_of_pos (div_pos hxpos hfwd)]
  rw [heval] at hH
  have hp := hfh_pos
  linarith [harc, hH]

theorem convergenceLoop_step1 (vis : ℝ → Prop) (n : ℕ) (d : ℝ)
    (h0 : ¬ vis d) (h1 : vis (d * 1.1)) :
    convergenceLoop vis (n + 2) d = (d * 1.1, 1) := by
  simp only [convergenceLoop, h0, if_false, h1, if_true]

theorem wit_loop : loopResult ⟨0, 0, 0⟩ ⟨0, 0, 0⟩ 1 10 10 =
    ((17/3600 : ℝ) * 1.1, 1) := by
  unfold loopResult
  rw [wit_seed]
  exact convergenceLoop_step1 _ 18 _ wit_not_vis wit_visible

/-- Witness for the amended C1 at the concrete point box: the loop's
visibility test succeeds at the returned distance, and the final-frame
corner-safety post-condition indeed holds. -/
theorem claimC1_witness :
    allCornersVisibleAt ⟨0, 0, 0⟩ ⟨0, 0, 0⟩ 1 10 10
      ((loopResult ⟨0, 0, 0⟩ ⟨0, 0, 0⟩ 1 10 10).1) ∧
    finalFrameCornersSafe ⟨0, 0, 0⟩ ⟨0, 0, 0⟩ 1 10 10 := by
  have hvis : allCornersVisibleAt ⟨0, 0, 0⟩ ⟨0, 0, 0⟩ 1 10 10
      ((loopResult ⟨0, 0, 0⟩ ⟨0, 0, 0⟩ 1 10 10).1) := by
    rw [wit_loop]
    exact wit_visible
  exact ⟨hvis, claimC1 ⟨0, 0, 0⟩ ⟨0, 0, 0⟩ 1 10 10 le_rfl le_rfl le_rfl
    (by norm_num) (by norm_num) (by norm_num) hvis⟩

end ScaleRender
